import Mathlib

/-!
Verification of the ai_planner service (policy engine, response sanitizer,
plan cache, retry orchestrator) against its design document.

The Python sources are shallowly embedded:
* strings are `String`/`List Char` (Python `len` counts code points, as does
  `String.length` here);
* Python floats (`time.time()`, backoff seconds) are modelled as `ℚ`;
* `re.Pattern.match` of the compiled allowlist patterns is modelled as an
  opaque boolean oracle `pmatch : String → String → Bool` applied to the
  pattern source text, since no claim depends on regex semantics;
* fallible Python code is modelled with `Except String`; an uncaught Python
  exception is an `Except.error`.
-/

set_option maxRecDepth 2048

namespace AIPlanner

/-! ### Python string primitives -/

/-- Characters stripped by Python `str.strip()` (the `str.isspace` set). -/
def isPySpace (c : Char) : Bool :=
  c.toNat == 9 || c.toNat == 10 || c.toNat == 11 || c.toNat == 12 || c.toNat == 13 ||
  c.toNat == 28 || c.toNat == 29 || c.toNat == 30 || c.toNat == 31 || c.toNat == 32 ||
  c.toNat == 133 || c.toNat == 160 || c.toNat == 5760 ||
  (8192 ≤ c.toNat && c.toNat ≤ 8202) ||
  c.toNat == 8232 || c.toNat == 8233 || c.toNat == 8239 || c.toNat == 8287 ||
  c.toNat == 12288

/-- Line boundaries recognised by Python `str.splitlines()`. -/
def isLineBreak (c : Char) : Bool :=
  c.toNat == 10 || c.toNat == 11 || c.toNat == 12 || c.toNat == 13 ||
  c.toNat == 28 || c.toNat == 29 || c.toNat == 30 ||
  c.toNat == 133 || c.toNat == 8232 || c.toNat == 8233

/-- Remove trailing whitespace (the right half of Python `str.strip()`). -/
def rdropSpace (l : List Char) : List Char :=
  l.foldr (fun c acc => if acc = [] ∧ isPySpace c then [] else c :: acc) []

/-- Python `str.strip()` on a char list: drop leading and trailing whitespace. -/
def pyStripL (l : List Char) : List Char :=
  rdropSpace (l.dropWhile isPySpace)

/-- Python `str.strip()`. -/
def pyStrip (s : String) : String :=
  String.mk (pyStripL s.data)

/-- Python `str.lower()`, restricted to the ASCII letters that occur in the
modelled configuration strings. -/
def pyLowerChar (c : Char) : Char :=
  if 65 ≤ c.toNat ∧ c.toNat ≤ 90 then Char.ofNat (c.toNat + 32) else c

/-- Python `str.lower()` (ASCII model). -/
def pyLower (s : String) : String :=
  String.mk (s.data.map pyLowerChar)

/-- Python `str.split(",")`: split at every comma, keeping empty pieces. -/
def splitComma : List Char → List (List Char)
  | [] => [[]]
  | c :: rest =>
    if c = ',' then [] :: splitComma rest
    else
      match splitComma rest with
      | g :: gs => (c :: g) :: gs
      | [] => [[c]]

/-! ### Policy Engine (`policy.py`) -/

/-- The named allowlist rule-sets `ALLOWLIST_SETS` of `policy.py`, as regex
source strings (patterns are matched through the opaque oracle). -/
def allowlistSets (k : String) : List String :=
  if k = r"base" then
    [r"^echo\b.*$", r"^true$", r"^false$", r"^pwd$", r"^printenv$", r"^env$",
     r"^ls(\s+-[a-zA-Z]+)*(\s+[\w\./\-\*]+)*$", r"^cat\s+[\w\./\-\*]+$",
     r"^tee\s+[\w\./\-\*]+$"]
  else if k = r"git" then
    [r"^git\s+status\b.*$", r"^git\s+fetch\b.*$", r"^git\s+pull\b.*$",
     r"^git\s+submodule\b.*$", r"^git\s+rev-parse\b.*$", r"^git\s+log\b.*$"]
  else if k = r"linux" then
    [r"^chmod\s+[-+rwxs0-7]+\s+[\w\./\-\*]+$", r"^chown\s+[\w:\-]+\s+[\w\./\-\*]+$",
     r"^mv\s+[\w\./\-\*]+\s+[\w\./\-\*]+$", r"^cp\s+(-r\s+)?[\w\./\-\*]+\s+[\w\./\-\*]+$",
     r"^rm\s+(-rf|\-f|\-r)\s+[\w\./\-\*]+$", r"^mkdir\s+(-p\s+)?[\w\./\-\*]+$",
     r"^du\s+.*$", r"^df\s+.*$"]
  else if k = r"build" then
    [r"^make(\s+[\w\-\=]+)*$", r"^cmake\s+.*$", r"^mvn\s+.*$", r"^gradle\s+.*$",
     r"^gradlew\s+.*$"]
  else if k = r"test" then
    [r"^pytest(\s+.*)?$", r"^nose(\s+.*)?$", r"^pytest-xdist(\s+.*)?$",
     r"^go\s+test(\s+.*)?$", r"^npm\s+test(\s+.*)?$", r"^yarn\s+test(\s+.*)?$"]
  else if k = r"python" then
    [r"^python(\d+(\.\d+)?)?\s+[-\w\./]+(\s+.*)?$", r"^pip(\d+)?\s+install\s+.*$",
     r"^ruff\s+.*$", r"^flake8\s+.*$", r"^black\s+.*$", r"^pytest(\s+.*)?$"]
  else if k = r"node" then
    [r"^npm\s+(ci|i|install)\b.*$", r"^npm\s+run\s+[\w\-\:]+(\s+.*)?$",
     r"^yarn(\s+.*)?$", r"^pnpm(\s+.*)?$"]
  else if k = r"java" then
    [r"^mvn\s+.*$", r"^gradle\s+.*$", r"^gradlew\s+.*$", r"^java\s+.*$",
     r"^javac\s+.*$"]
  else if k = r"k8s" then
    [r"^kubectl\s+apply\s+-f\s+[\w\./\-\*]+$", r"^kubectl\s+rollout\s+status\s+.*$",
     r"^kubectl\s+get\s+.*$"]
  else []

/-- The baseline pattern `policy.py` always keeps in the active list. -/
def echoPattern : String := r"^echo\b.*$"

/-- `policy.load_active_allowlist`: `mode` and `allowlistEnv` are the values of
the `ALLOWLIST_MODE` and `ALLOWLIST` environment variables.  Returns the list
of active pattern sources (compilation is modelled away by the oracle). -/
def load_active_allowlist (mode allowlistEnv : String) : List String :=
  if pyLower (pyStrip mode) = r"off" then []
  else
    let selected := ((splitComma allowlistEnv.data).map pyStripL).filter (fun l => l ≠ [])
    let patterns := selected.foldl (fun acc key => acc ++ allowlistSets (String.mk key)) []
    if echoPattern ∈ patterns then patterns else patterns ++ [echoPattern]

/-- `policy.is_allowed`.  `pmatch p cmd` models `re.compile(p).match(cmd)`,
`active` models `ACTIVE_ALLOWLIST`, `maxCmdLength` models
`int(os.getenv("MAX_CMD_LENGTH", "500"))`. -/
def is_allowed (pmatch : String → String → Bool) (active : List String)
    (maxCmdLength : Nat) (command : String) : Bool :=
  if active = [] then true
  else
    let cmd := pyStrip command
    if cmd.length > maxCmdLength then false
    else active.any (fun p => pmatch p cmd)

/-- The fallback `is_allowed` that `app.py` installs when `from policy import
is_allowed` raises (lines 8-13): it allows every command. -/
def fallback_is_allowed (cmd : String) : Bool := true

/-! ### JSON values

Python values decoded from JSON (floats are outside the model; no claim
involves them). -/

inductive Json where
  | null
  | bool (b : Bool)
  | num (n : Int)
  | str (s : String)
  | arr (xs : List Json)
  | obj (kvs : List (String × Json))

/-- Characters written via code points to keep the development free of
delimiter literals. -/
def dqChar : Char := Char.ofNat 34

/-- Backslash. -/
def bsChar : Char := Char.ofNat 92

/-- Single quote. -/
def sqChar : Char := Char.ofNat 39

/-- Backtick. -/
def btChar : Char := Char.ofNat 96

/-- Opening curly brace. -/
def obChar : Char := Char.ofNat 123

/-- Closing curly brace. -/
def cbChar : Char := Char.ofNat 125

/-- Join chunks with a separator. -/
def joinWith (sep : List Char) : List (List Char) → List Char
  | [] => []
  | [x] => x
  | x :: y :: t => x ++ sep ++ joinWith sep (y :: t)

/-- One character of Python `repr` of a string (main escapes; exotic
non-printables are kept as-is — no claim depends on them). -/
def pyReprEsc (c : Char) : List Char :=
  if c = bsChar then [bsChar, bsChar]
  else if c = sqChar then [bsChar, sqChar]
  else if c.toNat = 10 then [bsChar, 'n']
  else if c.toNat = 13 then [bsChar, 'r']
  else if c.toNat = 9 then [bsChar, 't']
  else [c]

/-- Python `repr` of a string (single-quoted form). -/
def pyReprStrL (s : String) : List Char :=
  sqChar :: s.data.foldr (fun c acc => pyReprEsc c ++ acc) [sqChar]

/-- Python `repr` of a decoded-JSON value (used by `str()` on containers). -/
def pyReprL : Json → List Char
  | .null => (r"None").data
  | .bool true => (r"True").data
  | .bool false => (r"False").data
  | .num n => (toString n).data
  | .str s => pyReprStrL s
  | .arr xs =>
    '[' :: (joinWith ((r", ").data) (xs.attach.map (fun x => pyReprL x.1)) ++ [']'])
  | .obj kvs =>
    obChar :: (joinWith ((r", ").data)
      (kvs.attach.map (fun x => pyReprStrL x.1.1 ++ (r": ").data ++ pyReprL x.1.2))
      ++ [cbChar])
termination_by j => sizeOf j
decreasing_by
  · have := List.sizeOf_lt_of_mem x.2
    simp only [Json.arr.sizeOf_spec]
    omega
  · have h1 := List.sizeOf_lt_of_mem x.2
    have h2 : sizeOf x.1.2 < sizeOf x.1 := by
      obtain ⟨⟨k, v⟩, _⟩ := x
      simp only [Prod.mk.sizeOf_spec]
      omega
    simp only [Json.obj.sizeOf_spec]
    omega

/-- Python `str()` on a decoded-JSON value. -/
def pyStr : Json → String
  | .null => r"None"
  | .bool true => r"True"
  | .bool false => r"False"
  | .num n => toString n
  | .str s => s
  | .arr xs => String.mk (pyReprL (.arr xs))
  | .obj kvs => String.mk (pyReprL (.obj kvs))

/-! ### Response Parser / Sanitizer (`app.py`) -/

/-- The characters kept by `_sanitize_name`: the complement of the regex
class `[^a-zA-Z0-9 ._-]`. -/
def allowedNameChar (c : Char) : Bool :=
  (97 ≤ c.toNat && c.toNat ≤ 122) || (65 ≤ c.toNat && c.toNat ≤ 90) ||
  (48 ≤ c.toNat && c.toNat ≤ 57) || c = ' ' || c = '.' || c = '_' || c = '-'

/-- `app._sanitize_name`: strip to the allowed charset, truncate to 40. -/
def _sanitize_name (name : String) : String :=
  String.mk ((name.data.filter allowedNameChar).take 40)

/-- A sanitized pipeline stage. -/
structure Stage where
  name : String
  command : String
  deriving DecidableEq

/-- A sanitized plan (the `{"stages": [...]}` dict). -/
structure Plan where
  stages : List Stage
  deriving DecidableEq

/-- The stage name computed by `_postprocess_and_filter`:
`_sanitize_name(str(raw.get("name", "Stage")))`. -/
def stageNameOf (rkvs : List (String × Json)) : String :=
  _sanitize_name (pyStr ((List.lookup (r"name") rkvs).getD (.str (r"Stage"))))

/-- `str(raw.get("command", "echo noop"))`. -/
def stageCommandRaw (rkvs : List (String × Json)) : String :=
  pyStr ((List.lookup (r"command") rkvs).getD (.str (r"echo noop")))

/-- `.splitlines()[0].strip()` on a non-empty string: first line, stripped. -/
def firstLineStripped (s : String) : String :=
  String.mk (pyStripL (s.data.takeWhile (fun c => !isLineBreak c)))

/-- One iteration of the `_postprocess_and_filter` loop body on a raw stage:
`ok none` = stage discarded, `ok (some st)` = stage kept, `error` = the Python
exception that the loop would raise (`AttributeError` on a non-dict stage,
`IndexError` from `"".splitlines()[0]`). -/
def stageStep (allowed : String → Bool) (raw : Json) : Except String (Option Stage) :=
  match raw with
  | .obj rkvs =>
    match (stageCommandRaw rkvs).data with
    | [] => .error (r"IndexError: list index out of range")
    | _ :: _ =>
      let c := firstLineStripped (stageCommandRaw rkvs)
      if c.data = [] then .ok none
      else if allowed c then .ok (some ⟨stageNameOf rkvs, c⟩) else .ok none
  | _ => .error (r"AttributeError: object has no attribute get")

/-- The `_postprocess_and_filter` loop over the (already truncated) raw stage
list. -/
def processStages (allowed : String → Bool) : List Json → Except String (List Stage)
  | [] => .ok []
  | raw :: rest =>
    match stageStep allowed raw with
    | .error e => .error e
    | .ok o =>
      match processStages allowed rest with
      | .error e => .error e
      | .ok tl => .ok (match o with | none => tl | some st => st :: tl)

/-- `plan.get("stages", [])`. -/
def stagesValOf (kvs : List (String × Json)) : Json :=
  (List.lookup (r"stages") kvs).getD (.arr [])

/-- Processing of the `stages` value: a list is sliced to `MAX_STAGES` and
looped over; slicing a string yields character "stages" that raise
`AttributeError` on `.get` (unless the slice is empty); slicing any other
value raises `TypeError`. -/
def postprocessStagesVal (maxStages : Nat) (allowed : String → Bool) :
    Json → Except String Plan
  | .arr xs => (processStages allowed (xs.take maxStages)).map Plan.mk
  | .str s =>
    if s.data = [] ∨ maxStages = 0 then .ok ⟨[]⟩
    else .error (r"AttributeError: object has no attribute get")
  | _ => .error (r"TypeError: object is not subscriptable")

/-- `app._postprocess_and_filter`.  `maxStages` models `MAX_STAGES` (default
12), `allowed` models the imported `is_allowed`.  A non-dict plan value, a
non-list `stages` value being sliced, a non-dict stage, or an empty command
string raise in Python; those paths are `Except.error`. -/
def _postprocess_and_filter (maxStages : Nat) (allowed : String → Bool)
    (plan : Json) : Except String Plan :=
  match plan with
  | .obj kvs => postprocessStagesVal maxStages allowed (stagesValOf kvs)
  | _ => .error (r"AttributeError: object has no attribute get")

/-! ### Plan Cache (`app.py`)

`_plan_cache` is a dict `key -> (expires_at, plan)`; time is `ℚ`.  The model
keeps at most one entry per key (insert removes any previous binding, like
dict assignment). -/

/-- The in-memory cache state. -/
def Cache : Type := List (String × (ℚ × Plan))

/-- Remove a key (dict deletion / overwrite helper). -/
def cacheRemove (m : Cache) (k : String) : Cache :=
  m.filter (fun e => e.1 != k)

/-- `app._get_cached`: returns the plan if `now` is strictly before the
expiry; evicts an expired entry.  Returns the value and the post-state. -/
def _get_cached (m : Cache) (now : ℚ) (k : String) : Option Plan × Cache :=
  match List.lookup k m with
  | some ent => if ent.1 > now then (some ent.2, m) else (none, cacheRemove m k)
  | none => (none, m)

/-- `app._put_cache`: store with expiry `now + ttl` (`ttl` models
`CACHE_TTL_SEC`, default 600), overwriting any prior entry. -/
def _put_cache (m : Cache) (now ttl : ℚ) (k : String) (p : Plan) : Cache :=
  (k, (now + ttl, p)) :: cacheRemove m k

/-! ### Retry Orchestrator (`app.py` `/plan` retry loop)

`gen i` models the `generate_content` call on attempt `i`: `.error e` is a
raised exception, `.ok t` is a response whose extracted text is `t`
(possibly empty).  Sleeps are recorded rather than performed. -/

/-- The result of the retry loop: the text obtained (if any), the last
recorded exception, the sleep durations in order, and the number of
generator invocations. -/
structure RetryResult where
  text : Option String
  lastErr : Option String
  sleeps : List ℚ
  calls : Nat
  deriving DecidableEq

/-- The retry loop of `/plan` (`for attempt in range(GENAI_RETRIES)`): on an
exception record it; on non-empty text break; otherwise sleep
`GENAI_BACKOFF ** attempt + 0.25` — after every failed attempt, including the
last. -/
def retryGo (gen : Nat → Except String String) (B : ℚ) (attempt rem : Nat)
    (lastErr : Option String) (sleeps : List ℚ) : RetryResult :=
  if h : rem = 0 then ⟨none, lastErr, sleeps.reverse, attempt⟩
  else
    match gen attempt with
    | .ok t =>
      if t.data = [] then
        retryGo gen B (attempt + 1) (rem - 1) lastErr ((B ^ attempt + 1/4) :: sleeps)
      else ⟨some t, lastErr, sleeps.reverse, attempt + 1⟩
    | .error e =>
      retryGo gen B (attempt + 1) (rem - 1) (some e) ((B ^ attempt + 1/4) :: sleeps)
termination_by rem
decreasing_by
  all_goals omega

/-- The retry loop with `retries` attempts (`GENAI_RETRIES`, default 4) and
base backoff `B` (`GENAI_BACKOFF`, default 0.75). -/
def retryLoop (gen : Nat → Except String String) (retries : Nat) (B : ℚ) :
    RetryResult :=
  retryGo gen B 0 retries none []

/-! ### Claim C4 -/

/-- A generator stub that fails transiently twice, then succeeds. -/
def genFailTwice : Nat → Except String String :=
  fun i => if i = 0 then .error (r"transient0")
           else if i = 1 then .error (r"transient1") else .ok (r"ok")

/-! ### Canonical serialization (`json.dumps(..., sort_keys=True,
separators=(",", ":"))`)

The serializer escapes like CPython's `json.dumps` with `ensure_ascii=True`:
`"` and `\` and the short control escapes, `\u00xx` for other controls,
`\uxxxx` for non-ASCII (surrogate pairs above the BMP).  Its output is pure
ASCII, so the UTF-8 encoding used for hashing is the code-point sequence. -/

/-- Lowercase hex digit. -/
def hexNibble (d : Nat) : Char :=
  Char.ofNat (if d < 10 then 48 + d else 87 + d)

/-- Four lowercase hex digits (for `\uXXXX`). -/
def hex4 (n : Nat) : List Char :=
  [hexNibble (n / 4096 % 16), hexNibble (n / 256 % 16),
   hexNibble (n / 16 % 16), hexNibble (n % 16)]

/-- JSON escape of one character, as `json.dumps` with `ensure_ascii` emits
it. -/
def escapeChar (c : Char) : List Char :=
  if c = dqChar then [bsChar, dqChar]
  else if c = bsChar then [bsChar, bsChar]
  else if c.toNat = 8 then [bsChar, 'b']
  else if c.toNat = 9 then [bsChar, 't']
  else if c.toNat = 10 then [bsChar, 'n']
  else if c.toNat = 12 then [bsChar, 'f']
  else if c.toNat = 13 then [bsChar, 'r']
  else if 32 ≤ c.toNat ∧ c.toNat ≤ 126 then [c]
  else if c.toNat < 65536 then bsChar :: 'u' :: hex4 c.toNat
  else
    (bsChar :: 'u' :: hex4 (55296 + (c.toNat - 65536) / 1024)) ++
    (bsChar :: 'u' :: hex4 (56320 + (c.toNat - 65536) % 1024))

/-- JSON escape of a character list. -/
def escapeL (l : List Char) : List Char :=
  l.foldr (fun c acc => escapeChar c ++ acc) []

/-- A JSON string literal: quote, escaped body, quote. -/
def serStrL (l : List Char) : List Char :=
  dqChar :: (escapeL l ++ [dqChar])

/-- Key order used by `sort_keys=True`. -/
def keyLe : (String × Json) → (String × Json) → Prop := fun a b => a.1 ≤ b.1

instance : DecidableRel keyLe := fun a b => (inferInstance : Decidable (a.1 ≤ b.1))

instance : IsTotal (String × Json) keyLe := ⟨fun a b => le_total a.1 b.1⟩

instance : IsTrans (String × Json) keyLe := ⟨fun _ _ _ h1 h2 => le_trans h1 h2⟩

/-- `json.dumps(v, sort_keys=True, separators=(",", ":"))` (floats out of
scope; object keys are sorted at every level). -/
def serializeJsonL : Json → List Char
  | .null => (r"null").data
  | .bool true => (r"true").data
  | .bool false => (r"false").data
  | .num n => (toString n).data
  | .str s => serStrL s.data
  | .arr xs =>
    '[' :: (joinWith [','] (xs.attach.map (fun x => serializeJsonL x.1)) ++ [']'])
  | .obj kvs =>
    obChar :: (joinWith [',']
      (((List.insertionSort keyLe kvs).attach).map
        (fun x => serStrL x.1.1.data ++ ':' :: serializeJsonL x.1.2))
      ++ [cbChar])
termination_by j => sizeOf j
decreasing_by
  · have := List.sizeOf_lt_of_mem x.2
    simp only [Json.arr.sizeOf_spec]
    omega
  · have h1 := List.sizeOf_lt_of_mem ((List.perm_insertionSort keyLe kvs).mem_iff.mp x.2)
    have h2 : sizeOf x.1.2 < sizeOf x.1 := by
      obtain ⟨⟨k, v⟩, _⟩ := x
      simp only [Prod.mk.sizeOf_spec]
      omega
    simp only [Json.obj.sizeOf_spec]
    omega

/-! ### SHA-1 (`hashlib.sha1`), on byte lists, with the 160-bit digest as a
natural number -/

/-- Reduce modulo 2^32. -/
def w32 (n : Nat) : Nat := n % 4294967296

/-- Rotate a 32-bit word left by `s`. -/
def rotl (s n : Nat) : Nat := w32 ((n <<< s) ||| (n >>> (32 - s)))

/-- `k` bytes of `n`, big-endian. -/
def beBytes : Nat → Nat → List Nat
  | 0, _ => []
  | k + 1, n => (n >>> (8 * k)) % 256 :: beBytes k n

/-- Zero bytes needed after the `0x80` marker so the padded length is 56 mod
64. -/
def sha1PadZeros (len : Nat) : Nat := (120 - (len + 1) % 64) % 64

/-- SHA-1 message padding. -/
def sha1Pad (msg : List Nat) : List Nat :=
  msg ++ 128 :: (List.replicate (sha1PadZeros msg.length) 0 ++ beBytes 8 (msg.length * 8))

/-- Big-endian word from bytes. -/
def bytesToWord (bs : List Nat) : Nat := bs.foldl (fun acc b => acc * 256 + b) 0

/-- The 16 initial schedule words of a 64-byte chunk. -/
def chunkWords16 (c : List Nat) : List Nat :=
  (List.range 16).map (fun i => bytesToWord ((c.drop (4 * i)).take 4))

/-- Extend the message schedule (list kept reversed while building). -/
def sha1ExtendRev (rev : List Nat) : Nat → List Nat
  | 0 => rev
  | k + 1 =>
    sha1ExtendRev
      (rotl 1 (((rev.getD 2 0) ^^^ (rev.getD 7 0)) ^^^ ((rev.getD 13 0) ^^^ (rev.getD 15 0)))
        :: rev) k

/-- The SHA-1 round function. -/
def sha1F (i b c d : Nat) : Nat :=
  if i < 20 then (b &&& c) ||| ((b ^^^ 4294967295) &&& d)
  else if i < 40 then (b ^^^ c) ^^^ d
  else if i < 60 then ((b &&& c) ||| (b &&& d)) ||| (c &&& d)
  else (b ^^^ c) ^^^ d

/-- The SHA-1 round constants. -/
def sha1K (i : Nat) : Nat :=
  if i < 20 then 1518500249 else if i < 40 then 1859775393
  else if i < 60 then 2400959708 else 3395469782

/-- The five 32-bit state words. -/
structure Sha1State where
  a : Nat
  b : Nat
  c : Nat
  d : Nat
  e : Nat

/-- One SHA-1 round: `iw` is the (round index, schedule word) pair. -/
def sha1Round (st : Sha1State) (iw : Nat × Nat) : Sha1State :=
  ⟨w32 (rotl 5 st.a + sha1F iw.1 st.b st.c st.d + st.e + sha1K iw.1 + iw.2),
   st.a, rotl 30 st.b, st.c, st.d⟩

/-- Process one 64-byte chunk. -/
def sha1Chunk (st : Sha1State) (chunk : List Nat) : Sha1State :=
  let ws := (sha1ExtendRev (chunkWords16 chunk).reverse 64).reverse
  let fin := (ws.enum).foldl sha1Round st
  ⟨w32 (st.a + fin.a), w32 (st.b + fin.b), w32 (st.c + fin.c),
   w32 (st.d + fin.d), w32 (st.e + fin.e)⟩

/-- Split into 64-byte chunks. -/
def chunks64 : List Nat → List (List Nat)
  | [] => []
  | b :: rest => ((b :: rest).take 64) :: chunks64 ((b :: rest).drop 64)
termination_by l => l.length
decreasing_by
  simp only [List.length_drop, List.length_cons]
  omega

/-- The SHA-1 state after hashing a byte list. -/
def sha1Words (msg : List Nat) : Sha1State :=
  (chunks64 (sha1Pad msg)).foldl sha1Chunk
    ⟨1732584193, 4023233417, 2562383102, 271733878, 3285377520⟩

/-- The 160-bit SHA-1 digest as a natural number. -/
def sha1DigestNat (msg : List Nat) : Nat :=
  ((((sha1Words msg).a * 4294967296 + (sha1Words msg).b) * 4294967296 +
      (sha1Words msg).c) * 4294967296 + (sha1Words msg).d) * 4294967296 +
    (sha1Words msg).e

/-- 40 lowercase hex digits of a digest (`.hexdigest()`). -/
def hex40 (n : Nat) : List Char :=
  (List.range 40).map (fun i => hexNibble (n / 16 ^ (39 - i) % 16))

/-- `hashlib.sha1(bytes).hexdigest()`. -/
def sha1HexBytes (msg : List Nat) : String := String.mk (hex40 (sha1DigestNat msg))

/-- `app._ctx_key`: SHA-1 hexdigest of the canonical serialization.  The
serializer output is pure ASCII, so its UTF-8 bytes are its code points. -/
def _ctx_key (ctx : Json) : String :=
  sha1HexBytes ((serializeJsonL ctx).map Char.toNat)

/-! ### `app._extract_json` -/

/-- Hex digit value (0 on non-hex input, which the callers never produce). -/
def hexDigitVal (c : Char) : Nat :=
  if 48 ≤ c.toNat ∧ c.toNat ≤ 57 then c.toNat - 48
  else if 97 ≤ c.toNat ∧ c.toNat ≤ 102 then c.toNat - 87
  else if 65 ≤ c.toNat ∧ c.toNat ≤ 70 then c.toNat - 55
  else 0

/-- `re.sub(r"```(json)?", "", text, flags=IGNORECASE)` scan; the fuel is an
upper bound on the number of scan steps (each step consumes at least one
character, so the input length suffices). -/
def stripFencesGo : Nat → List Char → List Char
  | 0, l => l
  | fuel + 1, l =>
    match l with
    | c1 :: c2 :: c3 :: rest =>
      if c1 = btChar ∧ c2 = btChar ∧ c3 = btChar then
        match rest with
        | a :: b :: c :: d :: rest2 =>
          if pyLowerChar a = 'j' ∧ pyLowerChar b = 's' ∧ pyLowerChar c = 'o' ∧
             pyLowerChar d = 'n'
          then stripFencesGo fuel rest2 else stripFencesGo fuel rest
        | _ => stripFencesGo fuel rest
      else c1 :: stripFencesGo fuel (c2 :: c3 :: rest)
    | l' => l'

/-- `re.sub(r"```(json)?", "", text, flags=IGNORECASE)`: left-to-right
removal of non-overlapping fence markers with their optional
case-insensitive `json` tag. -/
def stripFencesL (l : List Char) : List Char :=
  stripFencesGo l.length l

/-- `.replace("```", "")` (a no-op after the sub, but modelled faithfully). -/
def removeTriples : List Char → List Char
  | c1 :: c2 :: c3 :: rest =>
    if c1 = btChar ∧ c2 = btChar ∧ c3 = btChar then removeTriples rest
    else c1 :: removeTriples (c2 :: c3 :: rest)
  | l => l

/-- Keep the prefix ending at the last closing brace. -/
def takeToLastClose (l : List Char) : List Char :=
  (l.reverse.dropWhile (fun c => !(c = cbChar))).reverse

/-- `re.search(r"\{[\s\S]*\}", cleaned)`: the span from the first opening
brace that has a later closing brace, to the last closing brace. -/
def braceSpan : List Char → Option (List Char)
  | [] => none
  | c :: rest =>
    if c = obChar ∧ rest.contains cbChar then some (c :: takeToLastClose rest)
    else braceSpan rest

/-- `app._extract_json`. -/
def _extract_json (s : String) : String :=
  match braceSpan (pyStripL (removeTriples (stripFencesL s.data))) with
  | some m => String.mk m
  | none => String.mk (pyStripL (removeTriples (stripFencesL s.data)))

/-! ### `json.loads` (fuel-based model; floats out of scope) -/

/-- JSON inter-token whitespace. -/
def isJsonWs (c : Char) : Bool :=
  c.toNat == 32 || c.toNat == 9 || c.toNat == 10 || c.toNat == 13

/-- Skip JSON whitespace. -/
def skipWs (l : List Char) : List Char := l.dropWhile isJsonWs

/-- ASCII digit. -/
def isDigit (c : Char) : Bool := 48 ≤ c.toNat && c.toNat ≤ 57

/-- Parse a run of digits as a natural number. -/
def parseDigits (cs : List Char) : Option (Nat × List Char) :=
  match cs.takeWhile isDigit with
  | [] => none
  | digs => some (digs.foldl (fun acc c => acc * 10 + (c.toNat - 48)) 0, cs.dropWhile isDigit)

/-- Parse a JSON string body (after the opening quote) up to the closing
quote, decoding escapes. -/
def parseJStrBody : Nat → List Char → Option (List Char × List Char)
  | 0, _ => none
  | fuel + 1, cs =>
    match cs with
    | [] => none
    | c :: rest =>
      if c = dqChar then some ([], rest)
      else if c = bsChar then
        match rest with
        | [] => none
        | e :: r2 =>
          let cont := fun (ch : Char) (r : List Char) =>
            match parseJStrBody fuel r with
            | some (chars, rr) => some (ch :: chars, rr)
            | none => none
          if e = dqChar then cont dqChar r2
          else if e = bsChar then cont bsChar r2
          else if e = '/' then cont '/' r2
          else if e = 'n' then cont (Char.ofNat 10) r2
          else if e = 't' then cont (Char.ofNat 9) r2
          else if e = 'r' then cont (Char.ofNat 13) r2
          else if e = 'b' then cont (Char.ofNat 8) r2
          else if e = 'f' then cont (Char.ofNat 12) r2
          else if e = 'u' then
            match r2 with
            | a :: b :: c2 :: d :: r3 =>
              cont (Char.ofNat (((hexDigitVal a * 16 + hexDigitVal b) * 16 +
                hexDigitVal c2) * 16 + hexDigitVal d)) r3
            | _ => none
          else none
      else
        match parseJStrBody fuel rest with
        | some (chars, rr) => some (c :: chars, rr)
        | none => none

/-- Replace the binding of `k` if present, else append (Python dict insert,
keeping first-occurrence order with last-duplicate value). -/
def upsertKV (kvs : List (String × Json)) (k : String) (v : Json) :
    List (String × Json) :=
  if (List.lookup k kvs).isSome then kvs.map (fun p => if p.1 = k then (k, v) else p)
  else kvs ++ [(k, v)]

/-- Build a dict from parsed members in order. -/
def dictOfPairs (l : List (String × Json)) : List (String × Json) :=
  l.foldl (fun acc p => upsertKV acc p.1 p.2) []

mutual

/-- Parse one JSON value. -/
def parseVal : Nat → List Char → Option (Json × List Char)
  | 0, _ => none
  | fuel + 1, cs =>
    match cs with
    | [] => none
    | c :: rest =>
      if c = 'n' then
        match rest with
        | 'u' :: 'l' :: 'l' :: r => some (.null, r)
        | _ => none
      else if c = 't' then
        match rest with
        | 'r' :: 'u' :: 'e' :: r => some (.bool true, r)
        | _ => none
      else if c = 'f' then
        match rest with
        | 'a' :: 'l' :: 's' :: 'e' :: r => some (.bool false, r)
        | _ => none
      else if c = dqChar then
        match parseJStrBody (fuel + 1) rest with
        | some (chars, r) => some (.str (String.mk chars), r)
        | none => none
      else if c = '[' then
        match skipWs rest with
        | [] => none
        | c2 :: r2 =>
          if c2 = ']' then some (.arr [], r2)
          else
            match parseArrItems fuel (skipWs rest) with
            | some (xs, r) => some (.arr xs, r)
            | none => none
      else if c = obChar then
        match skipWs rest with
        | [] => none
        | c2 :: r2 =>
          if c2 = cbChar then some (.obj [], r2)
          else
            match parseObjItems fuel (skipWs rest) with
            | some (kvs, r) => some (.obj (dictOfPairs kvs), r)
            | none => none
      else if c = '-' then
        match parseDigits rest with
        | some (n, r) => some (.num (-(n : Int)), r)
        | none => none
      else if isDigit c then
        match parseDigits cs with
        | some (n, r) => some (.num ((n : Int)), r)
        | none => none
      else none

/-- Parse comma-separated array items up to the closing bracket. -/
def parseArrItems : Nat → List Char → Option (List Json × List Char)
  | 0, _ => none
  | fuel + 1, cs =>
    match parseVal fuel (skipWs cs) with
    | none => none
    | some (v, r) =>
      match skipWs r with
      | [] => none
      | c :: r2 =>
        if c = ',' then
          match parseArrItems fuel r2 with
          | some (vs, r3) => some (v :: vs, r3)
          | none => none
        else if c = ']' then some ([v], r2)
        else none

/-- Parse comma-separated object members up to the closing brace. -/
def parseObjItems : Nat → List Char → Option (List (String × Json) × List Char)
  | 0, _ => none
  | fuel + 1, cs =>
    match skipWs cs with
    | [] => none
    | c :: rest =>
      if c = dqChar then
        match parseJStrBody (fuel + 1) rest with
        | none => none
        | some (kchars, r) =>
          match skipWs r with
          | [] => none
          | c2 :: r2 =>
            if c2 = ':' then
              match parseVal fuel (skipWs r2) with
              | none => none
              | some (v, r3) =>
                match skipWs r3 with
                | [] => none
                | c3 :: r4 =>
                  if c3 = ',' then
                    match parseObjItems fuel r4 with
                    | some (kvs, r5) => some ((String.mk kchars, v) :: kvs, r5)
                    | none => none
                  else if c3 = cbChar then some ([(String.mk kchars, v)], r4)
                  else none
            else none
      else none

end

/-- `json.loads` (model). -/
def jsonLoads (s : String) : Except String Json :=
  match parseVal (s.data.length + 1) (skipWs s.data) with
  | some (v, rest) => if skipWs rest = [] then .ok v else .error (r"Extra data")
  | none => .error (r"Expecting value")

/-! ### The `/plan` endpoint (`app.plan`) -/

/-- Configuration of the handler (`MAX_STAGES`, `CACHE_TTL_SEC`,
`GENAI_RETRIES`, `GENAI_BACKOFF`, and the imported policy predicate). -/
structure PlanConfig where
  maxStages : Nat
  cacheTtl : ℚ
  retries : Nat
  backoff : ℚ
  allowed : String → Bool

/-- The observable outcome of one `/plan` invocation.  `success p cached`
is the 200 response (fresh or from cache); the other four are the 503
responses: `gemini_no_text`, `json_parse_error`, `empty_or_disallowed_plan`,
and the outer `except Exception` handler's generic `unhandled` response. -/
inductive Outcome where
  | success (p : Plan) (cached : Bool)
  | upstreamExhausted (msg : String)
  | parseError (msg : String)
  | emptyPlan
  | unhandled (msg : String)

/-- The handler's result: outcome, post-state of the cache, and the sleeps
performed. -/
structure PlanResult where
  outcome : Outcome
  cache : Cache
  sleeps : List ℚ

/-- The `gemini_no_text` message. -/
def noTextMsg : Option String → String
  | some e => String.append (r"gemini_no_text: ") e
  | none => r"gemini_no_text"

/-- `app.plan` (the `/plan` request handler): check the cache, call the
generator with retries, extract/parse/filter, cache a non-empty result.
The `prompt` is opaque to the model: `gen` maps the attempt index to the
generator outcome for this request. -/
def plan (cfg : PlanConfig) (gen : Nat → Except String String) (cache0 : Cache)
    (now : ℚ) (ctx : Json) : PlanResult :=
  match (_get_cached cache0 now (_ctx_key ctx)).1 with
  | some p => ⟨.success p true, (_get_cached cache0 now (_ctx_key ctx)).2, []⟩
  | none =>
    match (retryLoop gen cfg.retries cfg.backoff).text with
    | none =>
      ⟨.upstreamExhausted (noTextMsg (retryLoop gen cfg.retries cfg.backoff).lastErr),
       (_get_cached cache0 now (_ctx_key ctx)).2,
       (retryLoop gen cfg.retries cfg.backoff).sleeps⟩
    | some text =>
      match jsonLoads (pyStrip (_extract_json text)) with
      | .error e =>
        ⟨.parseError (String.append (r"json_parse_error: ") e),
         (_get_cached cache0 now (_ctx_key ctx)).2,
         (retryLoop gen cfg.retries cfg.backoff).sleeps⟩
      | .ok pd =>
        match _postprocess_and_filter cfg.maxStages cfg.allowed pd with
        | .error e =>
          ⟨.unhandled e, (_get_cached cache0 now (_ctx_key ctx)).2,
           (retryLoop gen cfg.retries cfg.backoff).sleeps⟩
        | .ok filtered =>
          if filtered.stages = [] then
            ⟨.emptyPlan, (_get_cached cache0 now (_ctx_key ctx)).2,
             (retryLoop gen cfg.retries cfg.backoff).sleeps⟩
          else
            ⟨.success filtered false,
             _put_cache (_get_cached cache0 now (_ctx_key ctx)).2 now cfg.cacheTtl
               (_ctx_key ctx) filtered,
             (retryLoop gen cfg.retries cfg.backoff).sleeps⟩

/-- The default configuration of `app.py` (12 stages, 600 s TTL, 4 retries,
0.75 backoff); the policy predicate is irrelevant to C2. -/
def defaultCfg : PlanConfig := ⟨12, 600, 4, 3/4, fun _ => true⟩

/-! ### Claim C10: idempotence of the sanitizer -/

/-- Re-encode a sanitized stage as the raw dict the sanitizer would read. -/
def stageToJson (st : Stage) : Json :=
  .obj [(r"name", .str st.name), (r"command", .str st.command)]

/-- Re-encode a sanitized plan as the raw dict the sanitizer would read. -/
def planToJson (p : Plan) : Json :=
  .obj [(r"stages", .arr (p.stages.map stageToJson))]

/-! ### Claim C9: fingerprinting

C9 is settled over the flat string-valued contexts its spec sentences
quantify over (`branch`, `commit message`, ...): a context is a key/value
list, embedded as a JSON object with string values. -/

/-- A flat string-valued context as the JSON object `_ctx_key` hashes. -/
def ctxOfFlat (l : List (String × String)) : Json :=
  .obj (l.map (fun p => (p.1, Json.str p.2)))

/-- The fingerprint of a flat context. -/
def fingerprintFlat (l : List (String × String)) : String :=
  _ctx_key (ctxOfFlat l)

/-- An infinite family of contexts over the single key `k` whose values are
runs of `a`s of every length. -/
def ctxOfNat (n : Nat) : List (String × String) :=
  [(r"k", String.mk (List.replicate n 'a'))]

/-- The digest, as an element of a finite type (the digest is below the
modulus, so the reduction is the identity). -/
def digestFin (l : List (String × String)) : Fin (4294967296 ^ 5) :=
  ⟨sha1DigestNat ((serializeJsonL (ctxOfFlat l)).map Char.toNat) % 4294967296 ^ 5,
   Nat.mod_lt _ (by norm_num)⟩

/-- One serialized object member: `"key":value`. -/
def itemOf (p : String × Json) : List Char :=
  serStrL p.1.data ++ ':' :: serializeJsonL p.2

/-! ### A decoder for the serializer's image

`decodeStr` is a proof device: a left inverse of `escapeL` (emitting code
points), used only to prove that the canonical serialization is injective on
string-valued contexts.  It only needs to succeed on the serializer's
output. -/

/-- Decode an escaped JSON string body up to its closing quote, returning
the decoded code points and the remaining input.  The fuel bounds the number
of decoded code points (each costs at least one input character). -/
def decodeStrGo : Nat → List Char → Option (List Nat × List Char)
  | 0, _ => none
  | fuel + 1, cs =>
    match cs with
    | [] => none
    | c :: cs1 =>
      if c = dqChar then some ([], cs1)
      else if c = bsChar then
        match cs1 with
        | [] => none
        | e :: cs2 =>
          if e = dqChar then (decodeStrGo fuel cs2).map (fun p => (34 :: p.1, p.2))
          else if e = bsChar then (decodeStrGo fuel cs2).map (fun p => (92 :: p.1, p.2))
          else if e = 'b' then (decodeStrGo fuel cs2).map (fun p => (8 :: p.1, p.2))
          else if e = 't' then (decodeStrGo fuel cs2).map (fun p => (9 :: p.1, p.2))
          else if e = 'n' then (decodeStrGo fuel cs2).map (fun p => (10 :: p.1, p.2))
          else if e = 'f' then (decodeStrGo fuel cs2).map (fun p => (12 :: p.1, p.2))
          else if e = 'r' then (decodeStrGo fuel cs2).map (fun p => (13 :: p.1, p.2))
          else if e = 'u' then
            match cs2 with
            | a :: b :: c2 :: d :: cs3 =>
              if 55296 ≤ ((hexDigitVal a * 16 + hexDigitVal b) * 16 + hexDigitVal c2) * 16
                    + hexDigitVal d ∧
                 ((hexDigitVal a * 16 + hexDigitVal b) * 16 + hexDigitVal c2) * 16
                    + hexDigitVal d < 56320 then
                match cs3 with
                | s1 :: s2 :: a2 :: b2 :: c3 :: d2 :: cs4 =>
                  if s1 = bsChar ∧ s2 = 'u' then
                    if 56320 ≤ ((hexDigitVal a2 * 16 + hexDigitVal b2) * 16 + hexDigitVal c3) * 16
                          + hexDigitVal d2 ∧
                       ((hexDigitVal a2 * 16 + hexDigitVal b2) * 16 + hexDigitVal c3) * 16
                          + hexDigitVal d2 < 57344 then
                      (decodeStrGo fuel cs4).map (fun p =>
                        ((65536 + ((((hexDigitVal a * 16 + hexDigitVal b) * 16 + hexDigitVal c2) * 16
                            + hexDigitVal d) - 55296) * 1024 +
                          ((((hexDigitVal a2 * 16 + hexDigitVal b2) * 16 + hexDigitVal c3) * 16
                            + hexDigitVal d2) - 56320)) :: p.1, p.2))
                    else none
                  else none
                | _ => none
              else
                (decodeStrGo fuel cs3).map (fun p =>
                  ((((hexDigitVal a * 16 + hexDigitVal b) * 16 + hexDigitVal c2) * 16
                      + hexDigitVal d) :: p.1, p.2))
            | _ => none
          else none
      else (decodeStrGo fuel cs1).map (fun p => (c.toNat :: p.1, p.2))

/-- The decoder, with enough fuel for its whole input. -/
def decodeStr (l : List Char) : Option (List Nat × List Char) :=
  decodeStrGo (l.length + 1) l

/-- The code points of a string value (proof device). -/
def strCodes : Json → List Nat
  | .str s => s.data.map Char.toNat
  | _ => []

/-- The decoded form of one object member. -/
def encPair (p : String × Json) : List Nat × List Nat :=
  (p.1.data.map Char.toNat, strCodes p.2)

/-- Decode a serialized member list (after the opening brace) up to the
closing brace; the fuel bounds the number of members. -/
def decodeItems : Nat → List Char → Option (List (List Nat × List Nat) × List Char)
  | 0, _ => none
  | fuel + 1, cs =>
    match cs with
    | [] => none
    | c :: cs1 =>
      if c = dqChar then
        match decodeStr cs1 with
        | none => none
        | some (k, r1) =>
          match r1 with
          | [] => none
          | c2 :: r2 =>
            if c2 = ':' then
              match r2 with
              | [] => none
              | c3 :: r3 =>
                if c3 = dqChar then
                  match decodeStr r3 with
                  | none => none
                  | some (v, r4) =>
                    match r4 with
                    | [] => none
                    | c5 :: r5 =>
                      if c5 = ',' then
                        match decodeItems fuel r5 with
                        | some (l, r6) => some ((k, v) :: l, r6)
                        | none => none
                      else if c5 = cbChar then some ([(k, v)], r5)
                      else none
                else none
            else none
      else none

/-- Decode a serialized flat object (proof device). -/
def decodeFlatObj (cs : List Char) : Option (List (List Nat × List Nat)) :=
  match cs with
  | [] => none
  | c :: rest =>
    if c = obChar then
      if rest = [cbChar] then some []
      else
        match decodeItems rest.length rest with
        | some (l, r) => if r = [] then some l else none
        | none => none
    else none

/-! ### Claims C1, C3, C7 -/

/-- C1: when the allowlist configuration module fails to load, `app.py` does
not abort; it silently installs a fallback `is_allowed` that returns true for
every command, contradicting the fail-fast requirement. -/
theorem fallback_is_allowed_always_true :
    ∀ cmd : String, fallback_is_allowed cmd = true :=
  fun _ => rfl

/-- C7: in `off` mode the active allowlist is empty and `is_allowed` returns
true for every input string (including the empty string and arbitrarily long
strings), for every pattern oracle and configured maximum length. -/
theorem is_allowed_off_mode_true :
    ∀ (pmatch : String → String → Bool) (sel : String) (maxLen : Nat) (cmd : String),
      is_allowed pmatch (load_active_allowlist (r"off") sel) maxLen cmd = true := by
  intro pmatch sel maxLen cmd
  rfl

/-- C3 (corrected): in strict mode — i.e. whenever the active allowlist is
non-empty — a command whose stripped length exceeds the configured maximum is
rejected regardless of its content and of the patterns; but this length check
is reached only after the off-mode check. -/
theorem is_allowed_strict_overlength_false :
    ∀ (pmatch : String → String → Bool) (active : List String) (maxLen : Nat)
      (cmd : String), active ≠ [] → (pyStrip cmd).length > maxLen →
      is_allowed pmatch active maxLen cmd = false := by
  intro pmatch active maxLen cmd hne hlen
  unfold is_allowed
  rw [if_neg hne]
  simp only []
  rw [if_pos hlen]

/-- `rdropSpace` is the identity on a run of one non-space character. -/
theorem rdropSpace_replicate (m : Nat) (c : Char) (h : isPySpace c = false) :
    rdropSpace (List.replicate m c) = List.replicate m c := by
  induction m with
  | zero => rfl
  | succ n ih =>
    show rdropSpace (c :: List.replicate n c) = _
    show (if rdropSpace (List.replicate n c) = [] ∧ isPySpace c then []
          else c :: rdropSpace (List.replicate n c)) = _
    rw [ih, h]
    simp [List.replicate_succ]

/-- Stripping a run of one non-space character changes nothing. -/
theorem pyStripL_replicate (m : Nat) (c : Char) (h : isPySpace c = false) :
    pyStripL (List.replicate m c) = List.replicate m c := by
  unfold pyStripL
  cases m with
  | zero => rfl
  | succ n =>
    rw [show List.replicate (n + 1) c = c :: List.replicate n c from rfl,
        List.dropWhile_cons]
    rw [h]
    simp only [Bool.false_eq_true, if_false]
    rw [show c :: List.replicate n c = List.replicate (n + 1) c from rfl]
    exact rdropSpace_replicate _ _ h

/-- Witness for C3's corrected claim: with the `base` allowlist active and the
default maximum 500, a 501-character command is rejected. -/
theorem is_allowed_strict_overlength_false_witness :
    (([r"^echo\b.*$"] : List String) ≠ []) ∧
    (pyStrip (String.mk (List.replicate 501 'x'))).length > 500 ∧
    is_allowed (fun _ _ => true) [r"^echo\b.*$"] 500
      (String.mk (List.replicate 501 'x')) = false := by
  have hlen : (pyStrip (String.mk (List.replicate 501 'x'))).length > 500 := by
    show (String.mk (pyStripL (List.replicate 501 'x'))).length > 500
    rw [show ∀ l : List Char, (String.mk l).length = l.length from fun _ => rfl]
    rw [pyStripL_replicate 501 'x' (by decide)]
    simp
  exact ⟨by decide, hlen,
    is_allowed_strict_overlength_false _ _ _ _ (by decide) hlen⟩

/-- C3 counterexample: the claim "the length check precedes the off-mode
check, so over-length commands are rejected regardless of mode" is false: in
`off` mode a 501-character command (trimmed length 501 > 500) is allowed,
because `is_allowed` returns true before ever checking the length. -/
theorem is_allowed_overlength_off_mode_true :
    is_allowed (fun _ _ => true) (load_active_allowlist (r"off") (r"base")) 500
      (String.mk (List.replicate 501 'x')) = true := by
  rfl

/-! ### Claims C5, C6 -/

/-- C5: a stage whose command field is the empty string makes
`_postprocess_and_filter` raise `IndexError` (Python `"".splitlines()` is
`[]`, so `[0]` fails) instead of discarding the stage; a whitespace-only
command, by contrast, is discarded normally. -/
theorem postprocess_empty_command_raises :
    _postprocess_and_filter 12 (fun _ => true)
      (Json.obj [(r"stages", Json.arr [Json.obj
        [(r"name", Json.str (r"Build")), (r"command", Json.str (r""))]])])
      = .error (r"IndexError: list index out of range") ∧
    _postprocess_and_filter 12 (fun _ => true)
      (Json.obj [(r"stages", Json.arr [Json.obj
        [(r"name", Json.str (r"Build")), (r"command", Json.str (r" "))]])])
      = .ok ⟨[]⟩ :=
  ⟨rfl, rfl⟩

/-- C6 counterexample: a stage whose provided name sanitizes to the empty
string keeps the empty name; it is not defaulted to "Stage". -/
theorem postprocess_empty_name_not_defaulted :
    _postprocess_and_filter 12 (fun _ => true)
      (Json.obj [(r"stages", Json.arr [Json.obj
        [(r"name", Json.str (r"###")), (r"command", Json.str (r"echo hi"))]])])
      = .ok ⟨[⟨r"", r"echo hi"⟩]⟩ ∧ (r"" : String) ≠ (r"Stage") :=
  ⟨rfl, by decide⟩

/-- C6 (corrected): the sanitizer strips the stage name to the allowed
charset and truncates it to 40 characters, and the default "Stage" is used
only when the name field is absent; a provided name that sanitizes to the
empty string remains empty. -/
theorem sanitize_name_behavior :
    (∀ s : String, (_sanitize_name s).data.length ≤ 40 ∧
      ∀ c ∈ (_sanitize_name s).data, allowedNameChar c = true) ∧
    (∀ rkvs : List (String × Json), List.lookup (r"name") rkvs = none →
      stageNameOf rkvs = r"Stage") ∧
    (∀ (rkvs : List (String × Json)) (s : String),
      List.lookup (r"name") rkvs = some (Json.str s) → _sanitize_name s = r"" →
      stageNameOf rkvs = r"") := by
  refine ⟨fun s => ⟨?_, fun c hc => ?_⟩, fun rkvs h => ?_, fun rkvs s h h0 => ?_⟩
  · show ((s.data.filter allowedNameChar).take 40).length ≤ 40
    rw [List.length_take]
    exact min_le_left _ _
  · have hc' : c ∈ s.data.filter allowedNameChar :=
      (List.take_sublist _ _).mem hc
    exact List.of_mem_filter hc'
  · unfold stageNameOf
    rw [h]
    rfl
  · unfold stageNameOf
    rw [h]
    exact h0

/-- Witness for C6's corrected claim at concrete inputs. -/
theorem sanitize_name_behavior_witness :
    stageNameOf [] = r"Stage" ∧
    stageNameOf [(r"name", Json.str (r"###"))] = r"" ∧
    (_sanitize_name (r"###")).data.length ≤ 40 :=
  ⟨sanitize_name_behavior.2.1 [] rfl,
   sanitize_name_behavior.2.2 _ _ rfl (by decide),
   (sanitize_name_behavior.1 _).1⟩

/-- Looking a key up after removing it finds nothing. -/
theorem lookup_cacheRemove (m : Cache) (k : String) :
    List.lookup k (cacheRemove m k) = none := by
  induction m with
  | nil => rfl
  | cons e t ih =>
    by_cases h : e.1 = k
    · simp [cacheRemove, List.filter, h] at ih ⊢
      exact ih
    · simp only [cacheRemove, List.filter] at ih ⊢
      have : (e.1 != k) = true := by simpa using h
      rw [this]
      obtain ⟨e1, e2⟩ := e
      rw [List.lookup_cons]
      simp only at h
      have : (k == e1) = false := by
        simp only [beq_eq_false_iff_ne, ne_eq]
        exact fun hk => h hk.symm
      rw [this]
      exact ih

/-! ### Claim C8 -/

/-- C8: cache round-trip.  After `put(k, p, ttl)` at time `now`, a `get(k)`
at any time strictly before `now + ttl` returns `p`; a `get(k)` at or after
`now + ttl` returns absent and evicts the entry. -/
theorem cache_roundtrip :
    ∀ (m : Cache) (now ttl t : ℚ) (k : String) (p : Plan),
      (t < now + ttl → (_get_cached (_put_cache m now ttl k p) t k).1 = some p) ∧
      (now + ttl ≤ t →
        (_get_cached (_put_cache m now ttl k p) t k).1 = none ∧
        List.lookup k (_get_cached (_put_cache m now ttl k p) t k).2 = none) := by
  intro m now ttl t k p
  have hlk : List.lookup k (_put_cache m now ttl k p) = some (now + ttl, p) := by
    unfold _put_cache
    rw [List.lookup_cons]
    simp
  constructor
  · intro ht
    unfold _get_cached
    rw [hlk]
    simp only []
    rw [if_pos ht]
  · intro ht
    unfold _get_cached
    rw [hlk]
    simp only []
    rw [if_neg (by exact not_lt.mpr ht)]
    refine ⟨rfl, ?_⟩
    show List.lookup k (cacheRemove (_put_cache m now ttl k p) k) = none
    exact lookup_cacheRemove _ _

/-- Witness for C8 at concrete values: put at time 0 with ttl 600; get at
t = 599 hits, get at t = 600 misses and evicts. -/
theorem cache_roundtrip_witness :
    (_get_cached (_put_cache [] 0 600 (r"fp") ⟨[⟨r"Build", r"make build"⟩]⟩)
        599 (r"fp")).1 = some ⟨[⟨r"Build", r"make build"⟩]⟩ ∧
    (_get_cached (_put_cache [] 0 600 (r"fp") ⟨[⟨r"Build", r"make build"⟩]⟩)
        600 (r"fp")).1 = none ∧
    List.lookup (r"fp")
      (_get_cached (_put_cache [] 0 600 (r"fp") ⟨[⟨r"Build", r"make build"⟩]⟩)
        600 (r"fp")).2 = none :=
  ⟨(cache_roundtrip [] 0 600 599 (r"fp") _).1 (by norm_num),
   ((cache_roundtrip [] 0 600 600 (r"fp") _).2 (by norm_num)).1,
   ((cache_roundtrip [] 0 600 600 (r"fp") _).2 (by norm_num)).2⟩

/-- C4 counterexample: with the default configuration (4 retries, base
backoff 0.75) and a stub failing twice then succeeding, the loop succeeds
after 3 calls but the two sleeps are `0.75^0 + 0.25 = 1.25` and
`0.75^1 + 0.25 = 1.0` — not the claimed `B * 2^attempt` sequence
`[0.75, 1.5]`. -/
theorem retry_backoff_not_exponential :
    retryLoop genFailTwice 4 (3/4)
      = ⟨some (r"ok"), some (r"transient1"), [(5:ℚ)/4, 1], 3⟩ ∧
    ([(5:ℚ)/4, 1] : List ℚ) ≠ [3/4 * 2 ^ 0, 3/4 * 2 ^ 1] := by
  constructor
  · show retryGo genFailTwice (3/4) 0 4 none [] = _
    rw [retryGo, dif_neg (by norm_num : (4:Nat) ≠ 0)]
    norm_num [genFailTwice]
    rw [retryGo, dif_neg (by norm_num : (3:Nat) ≠ 0)]
    norm_num [genFailTwice]
    rw [retryGo, dif_neg (by norm_num : (2:Nat) ≠ 0)]
    norm_num [genFailTwice]
    intro h
    exact absurd h (by decide)
  · simp only [ne_eq, List.cons.injEq, not_and]
    intro h
    norm_num at h

/-- C4 (corrected): the loop sleeps `B ^ attempt + 0.25` after every failed
attempt — including the final one — and never before the first attempt or
after a successful one.  With a stub failing transiently twice then
succeeding it returns the text after exactly 3 calls, sleeping exactly twice,
with durations `B^0 + 0.25` and `B^1 + 0.25`; with an always-failing stub it
sleeps once per attempt, final attempt included. -/
theorem retry_backoff_behavior :
    (∀ (B : ℚ) (gen : Nat → Except String String) (e0 e1 t : String),
      gen 0 = .error e0 → gen 1 = .error e1 → gen 2 = .ok t → t.data ≠ [] →
      retryLoop gen 4 B = ⟨some t, some e1, [B ^ 0 + 1/4, B ^ 1 + 1/4], 3⟩) ∧
    (∀ (B : ℚ) (R : Nat) (gen : Nat → Except String String),
      (∀ i, ∃ e, gen i = .error e) → (retryLoop gen R B).sleeps.length = R) := by
  constructor
  · intro B gen e0 e1 t h0 h1 h2 ht
    show retryGo gen B 0 4 none [] = _
    rw [retryGo, dif_neg (by norm_num : (4:Nat) ≠ 0)]
    simp only [h0]
    norm_num
    rw [retryGo, dif_neg (by norm_num : (3:Nat) ≠ 0)]
    simp only [h1]
    norm_num
    rw [retryGo, dif_neg (by norm_num : (2:Nat) ≠ 0)]
    simp only [h2]
    rw [if_neg ht]
    norm_num
  · intro B R gen hfail
    have key : ∀ (rem attempt : Nat) (le : Option String) (ss : List ℚ),
        (retryGo gen B attempt rem le ss).sleeps.length = ss.length + rem := by
      intro rem
      induction rem with
      | zero =>
        intro attempt le ss
        rw [retryGo, dif_pos rfl]
        simp
      | succ n ih =>
        intro attempt le ss
        obtain ⟨e, he⟩ := hfail attempt
        rw [retryGo, dif_neg (Nat.succ_ne_zero n)]
        simp only [he]
        have : n + 1 - 1 = n := rfl
        rw [this, ih]
        simp
        omega
    show (retryGo gen B 0 R none []).sleeps.length = R
    rw [key]
    simp

/-- Witness for C4's corrected claim: the concrete two-failures stub at
`B = 3/4`, and an always-failing stub over 4 attempts. -/
theorem retry_backoff_behavior_witness :
    retryLoop genFailTwice 4 (3/4)
      = ⟨some (r"ok"), some (r"transient1"),
         [((3:ℚ)/4) ^ 0 + 1/4, ((3:ℚ)/4) ^ 1 + 1/4], 3⟩ ∧
    (retryLoop (fun _ => .error (r"boom")) 4 (3/4)).sleeps.length = 4 :=
  ⟨retry_backoff_behavior.1 (3/4) genFailTwice (r"transient0") (r"transient1")
      (r"ok") rfl rfl rfl (by decide),
   retry_backoff_behavior.2 (3/4) 4 _ (fun _ => ⟨r"boom", rfl⟩)⟩

/-! ### Claim C2 -/

/-- C2 counterexample: with an empty cache and a generator that returns the
text `null` (valid JSON that is not an object), the handler exits through the
generic `unhandled` path — a fifth outcome beyond the four claimed — because
`_postprocess_and_filter` raises `AttributeError` on the non-dict parse
result and only the outer `except Exception` catches it. -/
theorem plan_unhandled_reachable :
    (plan defaultCfg (fun _ => .ok (r"null")) [] 0 (Json.obj [])).outcome
      = .unhandled (r"AttributeError: object has no attribute get") := by
  have hloop : retryLoop (fun _ => .ok (r"null")) 4 (3/4)
      = ⟨some (r"null"), none, [], 1⟩ := by
    show retryGo _ (3/4) 0 4 none [] = _
    rw [retryGo, dif_neg (by norm_num : (4:Nat) ≠ 0)]
    norm_num
    intro h
    exact absurd h (by decide)
  unfold plan
  rw [show defaultCfg.retries = 4 from rfl, show defaultCfg.backoff = 3/4 from rfl,
      hloop]
  rfl

/-- C2 (corrected): every invocation of the handler produces exactly one of
five outcomes — the four claimed ones plus the generic `unhandled` outcome —
and `unhandled` occurs exactly when the request misses the cache, the
generator produces text, the text parses as JSON, and the sanitizer raises on
the parse result (non-object payload, non-object stage, or empty command
string).  No exception escapes: every path returns an outcome. -/
theorem plan_outcomes_characterized :
    ∀ (cfg : PlanConfig) (gen : Nat → Except String String) (cache0 : Cache)
      (now : ℚ) (ctx : Json),
      (∃ e, (plan cfg gen cache0 now ctx).outcome = .unhandled e) ↔
      ((_get_cached cache0 now (_ctx_key ctx)).1 = none ∧
        ∃ t pd e, (retryLoop gen cfg.retries cfg.backoff).text = some t ∧
          jsonLoads (pyStrip (_extract_json t)) = .ok pd ∧
          _postprocess_and_filter cfg.maxStages cfg.allowed pd = .error e) := by
  intro cfg gen cache0 now ctx
  constructor
  · rintro ⟨e, he⟩
    unfold plan at he
    split at he
    · exact absurd he (by simp)
    · rename_i hmiss
      refine ⟨hmiss, ?_⟩
      split at he
      · exact absurd he (by simp)
      · rename_i t htext
        split at he
        · exact absurd he (by simp)
        · rename_i pd hparse
          split at he
          · rename_i e2 hpost
            exact ⟨t, pd, e2, htext, hparse, hpost⟩
          · split at he
            · exact absurd he (by simp)
            · exact absurd he (by simp)
  · rintro ⟨hmiss, t, pd, e, htext, hparse, hpost⟩
    refine ⟨e, ?_⟩
    unfold plan
    simp only [hmiss, htext, hparse, hpost]

/-- `String.mk` and `String.data` are inverse. -/
theorem strMkData (s : String) : String.mk s.data = s := by
  cases s
  rfl

/-- Unfolding `rdropSpace` over a cons cell. -/
theorem rdropSpace_cons (c : Char) (l : List Char) :
    rdropSpace (c :: l) =
      if rdropSpace l = [] ∧ isPySpace c then [] else c :: rdropSpace l := rfl

/-- Elements of `rdropSpace l` come from `l`. -/
theorem mem_rdropSpace {x : Char} {l : List Char} (h : x ∈ rdropSpace l) :
    x ∈ l := by
  induction l with
  | nil => exact absurd h (by simp [rdropSpace])
  | cons c t ih =>
    rw [rdropSpace_cons] at h
    by_cases hc : rdropSpace t = [] ∧ isPySpace c
    · rw [if_pos hc] at h
      exact absurd h (by simp)
    · rw [if_neg hc] at h
      rcases List.mem_cons.mp h with h1 | h2
      · exact List.mem_cons.mpr (Or.inl h1)
      · exact List.mem_cons.mpr (Or.inr (ih h2))

/-- `rdropSpace` is idempotent. -/
theorem rdropSpace_idem (l : List Char) :
    rdropSpace (rdropSpace l) = rdropSpace l := by
  induction l with
  | nil => rfl
  | cons c t ih =>
    rw [rdropSpace_cons]
    by_cases hc : rdropSpace t = [] ∧ isPySpace c
    · rw [if_pos hc]
      rfl
    · rw [if_neg hc, rdropSpace_cons, ih, if_neg hc]

/-- A `dropWhile` result is empty or starts with a failing element. -/
theorem dropWhile_shape (p : Char → Bool) (l : List Char) :
    List.dropWhile p l = [] ∨
      ∃ a t, List.dropWhile p l = a :: t ∧ p a = false := by
  induction l with
  | nil => exact Or.inl rfl
  | cons c t ih =>
    rw [List.dropWhile_cons]
    cases hp : p c
    · exact Or.inr ⟨c, t, by simp, hp⟩
    · simpa using ih

/-- The leading-space drop is a no-op on an already stripped list. -/
theorem dropWhile_pyStripL (l : List Char) :
    List.dropWhile isPySpace (pyStripL l) = pyStripL l := by
  unfold pyStripL
  rcases dropWhile_shape isPySpace l with h | ⟨a, t, h, ha⟩
  · rw [h]
    rfl
  · rw [h, rdropSpace_cons]
    by_cases hc : rdropSpace t = [] ∧ isPySpace a
    · rw [if_pos hc]
      rfl
    · rw [if_neg hc, List.dropWhile_cons, ha]
      simp

/-- Stripping is idempotent. -/
theorem pyStripL_idem (l : List Char) : pyStripL (pyStripL l) = pyStripL l := by
  show rdropSpace (List.dropWhile isPySpace (pyStripL l)) = pyStripL l
  rw [dropWhile_pyStripL l]
  show rdropSpace (rdropSpace (List.dropWhile isPySpace l))
      = rdropSpace (List.dropWhile isPySpace l)
  exact rdropSpace_idem _

/-- Elements of a stripped list come from the original list. -/
theorem mem_pyStripL {x : Char} {l : List Char} (h : x ∈ pyStripL l) : x ∈ l := by
  unfold pyStripL at h
  exact (List.dropWhile_sublist isPySpace).mem (mem_rdropSpace h)

/-- `_sanitize_name` is idempotent. -/
theorem sanitize_name_idem (s : String) :
    _sanitize_name (_sanitize_name s) = _sanitize_name s := by
  unfold _sanitize_name
  have hfil : ((s.data.filter allowedNameChar).take 40).filter allowedNameChar
      = (s.data.filter allowedNameChar).take 40 := by
    apply List.filter_eq_self.mpr
    intro a ha
    exact List.of_mem_filter ((List.take_sublist _ _).mem ha)
  show String.mk ((((s.data.filter allowedNameChar).take 40).filter allowedNameChar).take 40)
      = _
  rw [hfil, List.take_take]
  rfl

/-- Reduction of `stageStep` on a dict stage. -/
theorem stageStep_obj (allowed : String → Bool) (rkvs : List (String × Json)) :
    stageStep allowed (.obj rkvs) =
      match (stageCommandRaw rkvs).data with
      | [] => .error (r"IndexError: list index out of range")
      | _ :: _ =>
        if (firstLineStripped (stageCommandRaw rkvs)).data = [] then .ok none
        else if allowed (firstLineStripped (stageCommandRaw rkvs)) then
          .ok (some ⟨stageNameOf rkvs, firstLineStripped (stageCommandRaw rkvs)⟩)
        else .ok none := rfl

/-- A stage that survived one sanitizer pass passes the next one unchanged:
its name is sanitization-stable, its command is non-empty, line-break-free,
strip-stable, and allowed. -/
theorem stageStep_stable (allowed : String → Bool) (n c : String)
    (hn : _sanitize_name n = n) (hc1 : c.data ≠ [])
    (hc2 : c.data.takeWhile (fun ch => !isLineBreak ch) = c.data)
    (hc3 : pyStripL c.data = c.data) (ha : allowed c = true) :
    stageStep allowed (stageToJson ⟨n, c⟩) = .ok (some ⟨n, c⟩) := by
  have h1 : stageCommandRaw [(r"name", Json.str n), (r"command", Json.str c)] = c := rfl
  have h2 : stageNameOf [(r"name", Json.str n), (r"command", Json.str c)]
      = _sanitize_name n := rfl
  have hfl : firstLineStripped c = c := by
    unfold firstLineStripped
    rw [hc2, hc3]
  show stageStep allowed (.obj [(r"name", Json.str n), (r"command", Json.str c)]) = _
  rw [stageStep_obj, h1, h2, hfl, hn]
  rcases hd : c.data with _ | ⟨a, t⟩
  all_goals first
    | exact absurd hd hc1
    | simp [ha]

/-- The facts `stageStep_stable` needs hold of every stage `stageStep`
emits. -/
theorem stageStep_emits_stable (allowed : String → Bool) (raw : Json)
    (st : Stage) (h : stageStep allowed raw = .ok (some st)) :
    stageStep allowed (stageToJson st) = .ok (some st) := by
  rcases raw with _ | b | i | s | xs | rkvs
  case obj =>
    rw [stageStep_obj] at h
    rcases hd : (stageCommandRaw rkvs).data with _ | ⟨a, t⟩
    · rw [hd] at h
      exact absurd h (by simp)
    · rw [hd] at h
      simp only [] at h
      by_cases he : (firstLineStripped (stageCommandRaw rkvs)).data = []
      · rw [if_pos he] at h
        exact absurd h (by simp)
      · rw [if_neg he] at h
        by_cases hal : allowed (firstLineStripped (stageCommandRaw rkvs)) = true
        · rw [if_pos hal] at h
          have hst : st = ⟨stageNameOf rkvs, firstLineStripped (stageCommandRaw rkvs)⟩ := by
            have := h
            simp only [Except.ok.injEq, Option.some.injEq] at this
            exact this.symm
          subst hst
          apply stageStep_stable
          · exact sanitize_name_idem _
          · exact he
          · apply List.takeWhile_eq_self_iff.mpr
            intro x hx
            have hx2 : x ∈ (stageCommandRaw rkvs).data.takeWhile
                (fun ch => !isLineBreak ch) := by
              unfold firstLineStripped at hx
              exact mem_pyStripL hx
            have hx3 := List.mem_takeWhile_imp hx2
            exact hx3
          · show pyStripL (String.mk (pyStripL _)).data = _
            exact pyStripL_idem _
          · exact hal
        · rw [if_neg hal] at h
          exact absurd h (by simp)
  all_goals exact absurd h (by simp [stageStep])

/-- A sanitizer pass emits at most as many stages as it reads. -/
theorem processStages_length (allowed : String → Bool) (xs : List Json)
    (sts : List Stage) (h : processStages allowed xs = .ok sts) :
    sts.length ≤ xs.length := by
  induction xs generalizing sts with
  | nil =>
    simp only [processStages, Except.ok.injEq] at h
    subst h
    simp
  | cons raw rest ih =>
    simp only [processStages] at h
    rcases hs : stageStep allowed raw with e | o
    · rw [hs] at h
      exact absurd h (by simp)
    · rw [hs] at h
      rcases hr : processStages allowed rest with e | tl
      · rw [hr] at h
        exact absurd h (by simp)
      · rw [hr] at h
        have htl := ih tl hr
        rcases o with _ | st
        · simp only [Except.ok.injEq] at h
          subst h
          simp only [List.length_cons]
          omega
        · simp only [Except.ok.injEq] at h
          subst h
          simp only [List.length_cons]
          omega

/-- Stages emitted by one pass are re-emitted unchanged by the next pass. -/
theorem processStages_stable (allowed : String → Bool) (xs : List Json)
    (sts : List Stage) (h : processStages allowed xs = .ok sts) :
    processStages allowed (sts.map stageToJson) = .ok sts := by
  induction xs generalizing sts with
  | nil =>
    simp only [processStages, Except.ok.injEq] at h
    subst h
    rfl
  | cons raw rest ih =>
    simp only [processStages] at h
    rcases hs : stageStep allowed raw with e | o
    · rw [hs] at h
      exact absurd h (by simp)
    · rw [hs] at h
      rcases hr : processStages allowed rest with e | tl
      · rw [hr] at h
        exact absurd h (by simp)
      · rw [hr] at h
        have htl := ih tl hr
        rcases o with _ | st
        · simp only [Except.ok.injEq] at h
          subst h
          exact htl
        · simp only [Except.ok.injEq] at h
          subst h
          have hgood := stageStep_emits_stable allowed raw st hs
          simp only [List.map_cons, processStages, hgood, htl]

/-- C10: the sanitizer is idempotent — a plan it produced passes through a
second run (same stage bound, same policy) unchanged. -/
theorem postprocess_idempotent :
    ∀ (maxStages : Nat) (allowed : String → Bool) (pd : Json) (P : Plan),
      _postprocess_and_filter maxStages allowed pd = .ok P →
      _postprocess_and_filter maxStages allowed (planToJson P) = .ok P := by
  intro maxStages allowed pd P h
  have main : ∀ Q : Plan, processStages allowed (Q.stages.map stageToJson) = .ok Q.stages →
      Q.stages.length ≤ maxStages →
      _postprocess_and_filter maxStages allowed (planToJson Q) = .ok Q := by
    intro Q hq hlen
    have hsv : stagesValOf [((r"stages" : String), Json.arr (Q.stages.map stageToJson))]
        = Json.arr (Q.stages.map stageToJson) := rfl
    show postprocessStagesVal maxStages allowed
        (stagesValOf [((r"stages" : String), Json.arr (Q.stages.map stageToJson))])
        = .ok Q
    rw [hsv]
    show (processStages allowed ((Q.stages.map stageToJson).take maxStages)).map Plan.mk
        = .ok Q
    rw [List.take_of_length_le (by simpa using hlen), hq]
    rcases Q with ⟨qs⟩
    rfl
  rcases pd with _ | b | i | s | xs | kvs
  case obj =>
    have h2 : postprocessStagesVal maxStages allowed (stagesValOf kvs) = .ok P := h
    rcases hl : stagesValOf kvs with _ | b2 | i2 | s2 | xs2 | kvs2
    all_goals rw [hl] at h2
    case arr =>
      rcases hp : processStages allowed (xs2.take maxStages) with e | sts
      · rw [show postprocessStagesVal maxStages allowed (Json.arr xs2)
              = (processStages allowed (xs2.take maxStages)).map Plan.mk from rfl,
            hp] at h2
        exact absurd h2 (by simp [Except.map])
      · rw [show postprocessStagesVal maxStages allowed (Json.arr xs2)
              = (processStages allowed (xs2.take maxStages)).map Plan.mk from rfl,
            hp] at h2
        simp only [Except.map, Except.ok.injEq] at h2
        subst h2
        apply main
        · exact processStages_stable allowed _ _ hp
        · calc sts.length ≤ (xs2.take maxStages).length :=
                processStages_length allowed _ _ hp
            _ ≤ maxStages := by simp
    case str =>
      rw [show postprocessStagesVal maxStages allowed (Json.str s2)
            = (if s2.data = [] ∨ maxStages = 0 then (.ok ⟨[]⟩ : Except String Plan)
               else .error (r"AttributeError: object has no attribute get")) from rfl] at h2
      by_cases hse : s2.data = [] ∨ maxStages = 0
      · rw [if_pos hse] at h2
        simp only [Except.ok.injEq] at h2
        subst h2
        apply main
        · rfl
        · simp
      · rw [if_neg hse] at h2
        exact absurd h2 (by simp)
    all_goals exact absurd h2 (by simp [postprocessStagesVal])
  all_goals exact absurd h (by simp [_postprocess_and_filter])

/-- Witness for C10: a concrete sanitized plan passes the second run
unchanged. -/
theorem postprocess_idempotent_witness :
    _postprocess_and_filter 12 (fun _ => true)
      (Json.obj [(r"stages", Json.arr [Json.obj
        [(r"name", Json.str (r"Build")), (r"command", Json.str (r"make build"))]])])
      = .ok ⟨[⟨r"Build", r"make build"⟩]⟩ ∧
    _postprocess_and_filter 12 (fun _ => true)
      (planToJson ⟨[⟨r"Build", r"make build"⟩]⟩)
      = .ok ⟨[⟨r"Build", r"make build"⟩]⟩ :=
  ⟨rfl,
   postprocess_idempotent 12 (fun _ => true)
     (Json.obj [(r"stages", Json.arr [Json.obj
       [(r"name", Json.str (r"Build")), (r"command", Json.str (r"make build"))]])])
     ⟨[⟨r"Build", r"make build"⟩]⟩ rfl⟩

/-- Every `sha1Chunk` output has all five words below 2^32. -/
theorem sha1Chunk_bound (st : Sha1State) (ch : List Nat) :
    (sha1Chunk st ch).a < 4294967296 ∧ (sha1Chunk st ch).b < 4294967296 ∧
    (sha1Chunk st ch).c < 4294967296 ∧ (sha1Chunk st ch).d < 4294967296 ∧
    (sha1Chunk st ch).e < 4294967296 := by
  refine ⟨?_, ?_, ?_, ?_, ?_⟩ <;>
    exact Nat.mod_lt _ (by norm_num)

/-- The SHA-1 state stays bounded through the chunk fold. -/
theorem sha1Fold_bound (l : List (List Nat)) (st : Sha1State)
    (h : st.a < 4294967296 ∧ st.b < 4294967296 ∧ st.c < 4294967296 ∧
         st.d < 4294967296 ∧ st.e < 4294967296) :
    (l.foldl sha1Chunk st).a < 4294967296 ∧
    (l.foldl sha1Chunk st).b < 4294967296 ∧
    (l.foldl sha1Chunk st).c < 4294967296 ∧
    (l.foldl sha1Chunk st).d < 4294967296 ∧
    (l.foldl sha1Chunk st).e < 4294967296 := by
  induction l generalizing st with
  | nil => exact h
  | cons ch t ih =>
    simp only [List.foldl_cons]
    exact ih _ (sha1Chunk_bound st ch)

/-- The 160-bit digest is below `2^32 ^ 5`. -/
theorem sha1DigestNat_lt (msg : List Nat) :
    sha1DigestNat msg < 4294967296 ^ 5 := by
  have h := sha1Fold_bound (chunks64 (sha1Pad msg))
    ⟨1732584193, 4023233417, 2562383102, 271733878, 3285377520⟩ (by norm_num)
  obtain ⟨ha, hb, hc, hd, he⟩ := h
  unfold sha1DigestNat sha1Words
  rw [show (4294967296:ℕ) ^ 5 =
        1461501637330902918203684832716283019655932542976 from by norm_num]
  omega

/-- Equal digests give equal fingerprints. -/
theorem fingerprintFlat_of_digest {l1 l2 : List (String × String)}
    (h : digestFin l1 = digestFin l2) : fingerprintFlat l1 = fingerprintFlat l2 := by
  have hv := congrArg Fin.val h
  simp only [digestFin] at hv
  rw [Nat.mod_eq_of_lt (sha1DigestNat_lt _), Nat.mod_eq_of_lt (sha1DigestNat_lt _)] at hv
  unfold fingerprintFlat _ctx_key sha1HexBytes
  rw [hv]

/-- C9 counterexample: content-sensitivity cannot hold as stated.  The
fingerprint is a 160-bit digest, so among the infinitely many single-key
contexts `{"k": "aa...a"}` two distinct ones must collide; hence it is false
that any two same-key contexts differing in a value always produce different
fingerprints. -/
theorem fingerprint_not_injective :
    ¬ (∀ l1 l2 : List (String × String),
        l1.map Prod.fst = l2.map Prod.fst → l1 ≠ l2 →
        fingerprintFlat l1 ≠ fingerprintFlat l2) := by
  intro hclaim
  obtain ⟨n, m, hnm, heq⟩ :=
    Finite.exists_ne_map_eq_of_infinite (fun n => digestFin (ctxOfNat n))
  have hkeys : (ctxOfNat n).map Prod.fst = (ctxOfNat m).map Prod.fst := rfl
  have hne : ctxOfNat n ≠ ctxOfNat m := by
    intro h
    apply hnm
    have h2 : String.mk (List.replicate n 'a') = String.mk (List.replicate m 'a') := by
      have := congrArg (fun l => ((l.headI : String × String)).2) h
      simpa [ctxOfNat] using this
    have h3 : (List.replicate n 'a').length = (List.replicate m 'a').length := by
      have := congrArg String.data h2
      simp only at this
      rw [this]
    simpa using h3
  exact hclaim (ctxOfNat n) (ctxOfNat m) hkeys hne (fingerprintFlat_of_digest heq)

/-- Two lists sorted strictly by key that are permutations of each other are
equal. -/
theorem perm_sorted_strict_eq :
    ∀ {l1 l2 : List (String × Json)}, l1.Perm l2 →
      l1.Pairwise (fun a b => a.1 < b.1) → l2.Pairwise (fun a b => a.1 < b.1) →
      l1 = l2 := by
  intro l1
  induction l1 with
  | nil =>
    intro l2 hp h1 h2
    rw [hp.symm.eq_nil]
  | cons a t ih =>
    intro l2 hp h1 h2
    rcases l2 with _ | ⟨b, t2⟩
    · exact absurd hp.eq_nil (by simp)
    · by_cases hab : a = b
      · subst hab
        rw [ih hp.cons_inv (List.pairwise_cons.mp h1).2 (List.pairwise_cons.mp h2).2]
      · have hat2 : a ∈ t2 := by
          have := hp.mem_iff.mp (List.mem_cons_self a t)
          rcases List.mem_cons.mp this with h | h
          · exact absurd h hab
          · exact h
        have hbt : b ∈ t := by
          have := hp.symm.mem_iff.mp (List.mem_cons_self b t2)
          rcases List.mem_cons.mp this with h | h
          · exact absurd h.symm hab
          · exact h
        have h1' : a.1 < b.1 := (List.pairwise_cons.mp h1).1 b hbt
        have h2' : b.1 < a.1 := (List.pairwise_cons.mp h2).1 a hat2
        exact absurd h2' (lt_asymm h1')

/-- Distinct keys, as a pairwise property of the pair list. -/
theorem pairwise_keyNe_of_nodup {l : List (String × Json)}
    (h : (l.map Prod.fst).Nodup) : l.Pairwise (fun a b => a.1 ≠ b.1) :=
  List.pairwise_map.mp h

/-- With distinct keys, the key-sorted list is strictly sorted. -/
theorem insertionSort_strict (kvs : List (String × Json))
    (h : (kvs.map Prod.fst).Nodup) :
    (List.insertionSort keyLe kvs).Pairwise (fun a b => a.1 < b.1) := by
  have hs : (List.insertionSort keyLe kvs).Pairwise keyLe :=
    List.sorted_insertionSort keyLe kvs
  have hperm := List.perm_insertionSort keyLe kvs
  have hn2 : ((List.insertionSort keyLe kvs).map Prod.fst).Nodup :=
    ((hperm.map Prod.fst).nodup_iff).mpr h
  have hne := pairwise_keyNe_of_nodup hn2
  exact (hs.and hne).imp (fun hab => lt_of_le_of_ne hab.1 hab.2)

/-- Permuted inputs with distinct keys sort identically. -/
theorem insertionSort_perm_eq {l1 l2 : List (String × Json)} (hp : l1.Perm l2)
    (h : (l1.map Prod.fst).Nodup) :
    List.insertionSort keyLe l1 = List.insertionSort keyLe l2 :=
  perm_sorted_strict_eq
    ((List.perm_insertionSort keyLe l1).trans
      (hp.trans (List.perm_insertionSort keyLe l2).symm))
    (insertionSort_strict l1 h)
    (insertionSort_strict l2 (((hp.map Prod.fst).nodup_iff).mp h))

/-- Removing the `attach` of the well-founded recursion. -/
theorem map_attach_pair (l : List (String × Json)) (f : String × Json → List Char) :
    List.map (fun x : {x // x ∈ l} => f x.1) l.attach = List.map f l := by
  simp

/-- Closed form of the serializer on objects (the `attach` of the
well-founded definition removed). -/
theorem serializeJson_obj (kvs : List (String × Json)) :
    serializeJsonL (.obj kvs) =
      obChar :: (joinWith [','] ((List.insertionSort keyLe kvs).map itemOf)
        ++ [cbChar]) := by
  simp only [serializeJsonL]
  rw [map_attach_pair (List.insertionSort keyLe kvs)
    (fun p => serStrL p.1.data ++ ':' :: serializeJsonL p.2)]
  rfl

/-- `Char.toNat` is injective. -/
theorem charToNat_inj {a b : Char} (h : a.toNat = b.toNat) : a = b := by
  apply Char.ext
  apply UInt32.ext
  exact h

/-- Unicode scalar values avoid the surrogate range. -/
theorem charValidNat (c : Char) :
    c.toNat < 55296 ∨ (57344 ≤ c.toNat ∧ c.toNat < 1114112) := by
  have h := c.valid
  simp only [UInt32.isValidChar, Nat.isValidChar, UInt32.toNat] at h
  exact h

/-- Decoding a hex nibble the serializer wrote. -/
theorem hexDigitVal_hexNibble (d : Nat) (h : d < 16) :
    hexDigitVal (hexNibble d) = d := by
  interval_cases d <;> rfl

/-- Decoding the four nibbles of `hex4 n`. -/
theorem hex4_eval (n : Nat) (h : n < 65536) :
    ((hexDigitVal (hexNibble (n / 4096 % 16)) * 16 +
      hexDigitVal (hexNibble (n / 256 % 16))) * 16 +
      hexDigitVal (hexNibble (n / 16 % 16))) * 16 +
      hexDigitVal (hexNibble (n % 16)) = n := by
  rw [hexDigitVal_hexNibble _ (Nat.mod_lt _ (by norm_num)),
      hexDigitVal_hexNibble _ (Nat.mod_lt _ (by norm_num)),
      hexDigitVal_hexNibble _ (Nat.mod_lt _ (by norm_num)),
      hexDigitVal_hexNibble _ (Nat.mod_lt _ (by norm_num))]
  omega

/-- Decoder step: closing quote. -/
theorem decodeStrGo_dq (fuel : Nat) (X : List Char) :
    decodeStrGo (fuel + 1) (dqChar :: X) = some ([], X) := rfl

/-- Decoder step: escaped quote. -/
theorem decodeStrGo_esc_dq (fuel : Nat) (X : List Char) :
    decodeStrGo (fuel + 1) (bsChar :: dqChar :: X)
      = (decodeStrGo fuel X).map (fun p => (34 :: p.1, p.2)) := rfl

/-- Decoder step: escaped backslash. -/
theorem decodeStrGo_esc_bs (fuel : Nat) (X : List Char) :
    decodeStrGo (fuel + 1) (bsChar :: bsChar :: X)
      = (decodeStrGo fuel X).map (fun p => (92 :: p.1, p.2)) := rfl

/-- Decoder step: backspace. -/
theorem decodeStrGo_esc_b (fuel : Nat) (X : List Char) :
    decodeStrGo (fuel + 1) (bsChar :: 'b' :: X)
      = (decodeStrGo fuel X).map (fun p => (8 :: p.1, p.2)) := rfl

/-- Decoder step: tab. -/
theorem decodeStrGo_esc_t (fuel : Nat) (X : List Char) :
    decodeStrGo (fuel + 1) (bsChar :: 't' :: X)
      = (decodeStrGo fuel X).map (fun p => (9 :: p.1, p.2)) := rfl

/-- Decoder step: newline. -/
theorem decodeStrGo_esc_n (fuel : Nat) (X : List Char) :
    decodeStrGo (fuel + 1) (bsChar :: 'n' :: X)
      = (decodeStrGo fuel X).map (fun p => (10 :: p.1, p.2)) := rfl

/-- Decoder step: form feed. -/
theorem decodeStrGo_esc_f (fuel : Nat) (X : List Char) :
    decodeStrGo (fuel + 1) (bsChar :: 'f' :: X)
      = (decodeStrGo fuel X).map (fun p => (12 :: p.1, p.2)) := rfl

/-- Decoder step: carriage return. -/
theorem decodeStrGo_esc_r (fuel : Nat) (X : List Char) :
    decodeStrGo (fuel + 1) (bsChar :: 'r' :: X)
      = (decodeStrGo fuel X).map (fun p => (13 :: p.1, p.2)) := rfl

/-- Decoder step: a literal (unescaped) character. -/
theorem decodeStrGo_lit (fuel : Nat) (c : Char) (X : List Char)
    (h1 : ¬(c = dqChar)) (h2 : ¬(c = bsChar)) :
    decodeStrGo (fuel + 1) (c :: X)
      = (decodeStrGo fuel X).map (fun p => (c.toNat :: p.1, p.2)) := by
  simp only [decodeStrGo]
  rw [if_neg h1, if_neg h2]

/-- Decoder step: a `\uXXXX` escape outside the surrogate range. -/
theorem decodeStrGo_u_bmp (fuel : Nat) (a b c2 d : Char) (X : List Char)
    (h : ¬(55296 ≤ ((hexDigitVal a * 16 + hexDigitVal b) * 16 + hexDigitVal c2) * 16
            + hexDigitVal d ∧
          ((hexDigitVal a * 16 + hexDigitVal b) * 16 + hexDigitVal c2) * 16
            + hexDigitVal d < 56320)) :
    decodeStrGo (fuel + 1) (bsChar :: 'u' :: a :: b :: c2 :: d :: X) =
      (decodeStrGo fuel X).map (fun p =>
        ((((hexDigitVal a * 16 + hexDigitVal b) * 16 + hexDigitVal c2) * 16
          + hexDigitVal d) :: p.1, p.2)) := by
  simp only [decodeStrGo,
    show ('u' = dqChar) = False from by decide,
    show ('u' = bsChar) = False from by decide,
    show ('u' = 'b') = False from by decide,
    show ('u' = 't') = False from by decide,
    show ('u' = 'n') = False from by decide,
    show ('u' = 'f') = False from by decide,
    show ('u' = 'r') = False from by decide,
    if_true, if_false]
  rw [if_neg h, if_neg (show ¬(bsChar = dqChar) from by decide)]

/-- Decoder step: a surrogate pair of `\uXXXX` escapes. -/
theorem decodeStrGo_u_pair (fuel : Nat) (a b c2 d a2 b2 c3 d2 : Char) (X : List Char)
    (h1 : 55296 ≤ ((hexDigitVal a * 16 + hexDigitVal b) * 16 + hexDigitVal c2) * 16
            + hexDigitVal d ∧
          ((hexDigitVal a * 16 + hexDigitVal b) * 16 + hexDigitVal c2) * 16
            + hexDigitVal d < 56320)
    (h2 : 56320 ≤ ((hexDigitVal a2 * 16 + hexDigitVal b2) * 16 + hexDigitVal c3) * 16
            + hexDigitVal d2 ∧
          ((hexDigitVal a2 * 16 + hexDigitVal b2) * 16 + hexDigitVal c3) * 16
            + hexDigitVal d2 < 57344) :
    decodeStrGo (fuel + 1) (bsChar :: 'u' :: a :: b :: c2 :: d ::
               bsChar :: 'u' :: a2 :: b2 :: c3 :: d2 :: X) =
      (decodeStrGo fuel X).map (fun p =>
        ((65536 + ((((hexDigitVal a * 16 + hexDigitVal b) * 16 + hexDigitVal c2) * 16
            + hexDigitVal d) - 55296) * 1024 +
          ((((hexDigitVal a2 * 16 + hexDigitVal b2) * 16 + hexDigitVal c3) * 16
            + hexDigitVal d2) - 56320)) :: p.1, p.2)) := by
  simp only [decodeStrGo,
    show ('u' = dqChar) = False from by decide,
    show ('u' = bsChar) = False from by decide,
    show ('u' = 'b') = False from by decide,
    show ('u' = 't') = False from by decide,
    show ('u' = 'n') = False from by decide,
    show ('u' = 'f') = False from by decide,
    show ('u' = 'r') = False from by decide,
    if_true, if_false]
  rw [if_pos h1, if_pos h2, if_neg (show ¬(bsChar = dqChar) from by decide)]
  simp

/-- Escaping never shortens a string. -/
theorem escapeL_length (s : List Char) : s.length ≤ (escapeL s).length := by
  induction s with
  | nil => simp [escapeL]
  | cons c t ih =>
    have hc : 1 ≤ (escapeChar c).length := by
      unfold escapeChar
      split_ifs <;> simp [hex4]
    show (c :: t).length ≤ (escapeChar c ++ escapeL t).length
    simp only [List.length_cons, List.length_append]
    omega

/-- The decoder inverts the escaper, given enough fuel. -/
theorem decodeStrGo_escape (s : List Char) (rest : List Char) :
    ∀ fuel, s.length + 1 ≤ fuel →
      decodeStrGo fuel (escapeL s ++ dqChar :: rest) = some (s.map Char.toNat, rest) := by
  induction s with
  | nil =>
    intro fuel hf
    rcases fuel with _ | f
    · omega
    · show decodeStrGo (f + 1) (dqChar :: rest) = _
      rw [decodeStrGo_dq]
      rfl
  | cons c t ih =>
    intro fuel hf
    rcases fuel with _ | f
    · omega
    · have hft : t.length + 1 ≤ f := by
        simp only [List.length_cons] at hf
        omega
      show decodeStrGo (f + 1) ((escapeChar c ++ escapeL t) ++ dqChar :: rest) = _
      rw [List.append_assoc]
      by_cases h1 : c = dqChar
      · rw [show escapeChar c = [bsChar, dqChar] from by rw [escapeChar, if_pos h1]]
        simp only [List.cons_append, List.nil_append]
        rw [decodeStrGo_esc_dq, ih f hft]
        subst h1
        rfl
      · by_cases h2 : c = bsChar
        · rw [show escapeChar c = [bsChar, bsChar] from by
            rw [escapeChar, if_neg h1, if_pos h2]]
          simp only [List.cons_append, List.nil_append]
          rw [decodeStrGo_esc_bs, ih f hft]
          subst h2
          rfl
        · by_cases h3 : c.toNat = 8
          · rw [show escapeChar c = [bsChar, 'b'] from by
              rw [escapeChar, if_neg h1, if_neg h2, if_pos h3]]
            simp only [List.cons_append, List.nil_append]
            rw [decodeStrGo_esc_b, ih f hft]
            rw [show (8 : Nat) = c.toNat from h3.symm]
            rfl
          · by_cases h4 : c.toNat = 9
            · rw [show escapeChar c = [bsChar, 't'] from by
                rw [escapeChar, if_neg h1, if_neg h2, if_neg h3, if_pos h4]]
              simp only [List.cons_append, List.nil_append]
              rw [decodeStrGo_esc_t, ih f hft]
              rw [show (9 : Nat) = c.toNat from h4.symm]
              rfl
            · by_cases h5 : c.toNat = 10
              · rw [show escapeChar c = [bsChar, 'n'] from by
                  rw [escapeChar, if_neg h1, if_neg h2, if_neg h3, if_neg h4, if_pos h5]]
                simp only [List.cons_append, List.nil_append]
                rw [decodeStrGo_esc_n, ih f hft]
                rw [show (10 : Nat) = c.toNat from h5.symm]
                rfl
              · by_cases h6 : c.toNat = 12
                · rw [show escapeChar c = [bsChar, 'f'] from by
                    rw [escapeChar, if_neg h1, if_neg h2, if_neg h3, if_neg h4, if_neg h5,
                        if_pos h6]]
                  simp only [List.cons_append, List.nil_append]
                  rw [decodeStrGo_esc_f, ih f hft]
                  rw [show (12 : Nat) = c.toNat from h6.symm]
                  rfl
                · by_cases h7 : c.toNat = 13
                  · rw [show escapeChar c = [bsChar, 'r'] from by
                      rw [escapeChar, if_neg h1, if_neg h2, if_neg h3, if_neg h4, if_neg h5,
                          if_neg h6, if_pos h7]]
                    simp only [List.cons_append, List.nil_append]
                    rw [decodeStrGo_esc_r, ih f hft]
                    rw [show (13 : Nat) = c.toNat from h7.symm]
                    rfl
                  · by_cases h8 : 32 ≤ c.toNat ∧ c.toNat ≤ 126
                    · rw [show escapeChar c = [c] from by
                        rw [escapeChar, if_neg h1, if_neg h2, if_neg h3, if_neg h4, if_neg h5,
                            if_neg h6, if_neg h7, if_pos h8]]
                      simp only [List.cons_append, List.nil_append]
                      rw [decodeStrGo_lit f c _ h1 h2, ih f hft]
                      rfl
                    · by_cases h9 : c.toNat < 65536
                      · rw [show escapeChar c = bsChar :: 'u' :: hex4 c.toNat from by
                          rw [escapeChar, if_neg h1, if_neg h2, if_neg h3, if_neg h4, if_neg h5,
                              if_neg h6, if_neg h7, if_neg h8, if_pos h9]]
                        simp only [hex4, List.cons_append, List.nil_append]
                        rw [decodeStrGo_u_bmp f _ _ _ _ _ (by
                          rw [hex4_eval c.toNat h9]
                          rcases charValidNat c with hv | hv
                          · omega
                          · omega)]
                        rw [hex4_eval c.toNat h9, ih f hft]
                        rfl
                      · have h10 : 65536 ≤ c.toNat := by omega
                        have h11 : c.toNat < 1114112 := by
                          rcases charValidNat c with hv | hv
                          · omega
                          · omega
                        rw [show escapeChar c =
                            (bsChar :: 'u' :: hex4 (55296 + (c.toNat - 65536) / 1024)) ++
                            (bsChar :: 'u' :: hex4 (56320 + (c.toNat - 65536) % 1024)) from by
                          rw [escapeChar, if_neg h1, if_neg h2, if_neg h3, if_neg h4, if_neg h5,
                              if_neg h6, if_neg h7, if_neg h8, if_neg h9]]
                        have hhi : 55296 + (c.toNat - 65536) / 1024 < 65536 := by
                          have : (c.toNat - 65536) / 1024 < 1024 := by
                            apply Nat.div_lt_of_lt_mul
                            omega
                          omega
                        have hlo : 56320 + (c.toNat - 65536) % 1024 < 65536 := by
                          have := Nat.mod_lt (c.toNat - 65536) (show 0 < 1024 from by norm_num)
                          omega
                        simp only [hex4, List.cons_append, List.nil_append]
                        rw [decodeStrGo_u_pair f _ _ _ _ _ _ _ _ _
                          (by
                            rw [hex4_eval _ hhi]
                            have : (c.toNat - 65536) / 1024 < 1024 := by
                              apply Nat.div_lt_of_lt_mul
                              omega
                            omega)
                          (by
                            rw [hex4_eval _ hlo]
                            have := Nat.mod_lt (c.toNat - 65536) (show 0 < 1024 from by norm_num)
                            omega)]
                        rw [hex4_eval _ hhi, hex4_eval _ hlo, ih f hft]
                        have hcode : 65536 + (55296 + (c.toNat - 65536) / 1024 - 55296) * 1024 +
                            (56320 + (c.toNat - 65536) % 1024 - 56320) = c.toNat := by
                          have := Nat.div_add_mod (c.toNat - 65536) 1024
                          omega
                        rw [hcode]
                        rfl

/-- The decoder inverts the escaper. -/
theorem decodeStr_escape (s : List Char) (rest : List Char) :
    decodeStr (escapeL s ++ dqChar :: rest) = some (s.map Char.toNat, rest) := by
  unfold decodeStr
  apply decodeStrGo_escape
  have h := escapeL_length s
  simp only [List.length_append, List.length_cons]
  omega

/-- The serializer's string case. -/
theorem serializeJson_str (s : String) : serializeJsonL (.str s) = serStrL s.data := by
  simp only [serializeJsonL]

/-- Decoding one serialized member consumes it and looks at the next
delimiter. -/
theorem decodeItems_step (fuel : Nat) (kd vd : List Char) (c5 : Char)
    (r5 : List Char) :
    decodeItems (fuel + 1) ((serStrL kd ++ ':' :: serStrL vd) ++ c5 :: r5) =
      if c5 = ',' then
        match decodeItems fuel r5 with
        | some (l, r6) => some ((kd.map Char.toNat, vd.map Char.toNat) :: l, r6)
        | none => none
      else if c5 = cbChar then some ([(kd.map Char.toNat, vd.map Char.toNat)], r5)
      else none := by
  have hshape : (serStrL kd ++ ':' :: serStrL vd) ++ c5 :: r5
      = dqChar :: (escapeL kd ++ dqChar ::
          (':' :: (dqChar :: (escapeL vd ++ dqChar :: (c5 :: r5))))) := by
    simp [serStrL, List.cons_append, List.append_assoc]
  rw [hshape]
  simp only [decodeItems, decodeStr_escape, if_true, if_false]

/-- Decoding a serialized member list. -/
theorem decodeItems_roundtrip :
    ∀ (M : List (String × Json)) (rest : List Char) (fuel : Nat),
      M ≠ [] → (∀ p ∈ M, ∃ s, p.2 = Json.str s) → M.length ≤ fuel →
      decodeItems fuel (joinWith [','] (M.map itemOf) ++ cbChar :: rest)
        = some (M.map encPair, rest) := by
  intro M
  induction M with
  | nil =>
    intro rest fuel h _ _
    exact absurd rfl h
  | cons p t ih =>
    intro rest fuel _ hall hlen
    rcases fuel with _ | f
    · simp only [List.length_cons] at hlen
      omega
    · obtain ⟨s, hs⟩ := hall p (List.mem_cons_self p t)
      have hitem : itemOf p = serStrL p.1.data ++ ':' :: serStrL s.data := by
        unfold itemOf
        rw [hs, serializeJson_str]
      have henc : encPair p = (p.1.data.map Char.toNat, s.data.map Char.toNat) := by
        unfold encPair
        rw [hs]
        rfl
      rcases t with _ | ⟨q, t2⟩
      · show decodeItems (f + 1) (itemOf p ++ cbChar :: rest) = _
        rw [hitem, decodeItems_step]
        rw [if_neg (show ¬(cbChar = ',') from by decide), if_pos rfl]
        rw [show ([p].map encPair) = [encPair p] from rfl, henc]
      · rw [show joinWith [','] ((p :: q :: t2).map itemOf)
              = (itemOf p ++ [',']) ++ joinWith [','] ((q :: t2).map itemOf) from rfl]
        rw [List.append_assoc, List.append_assoc, List.singleton_append, hitem,
            decodeItems_step, if_pos rfl]
        rw [ih rest f (by simp) (fun p2 hp2 => hall p2 (List.mem_cons_of_mem p hp2))
          (by simp only [List.length_cons] at hlen ⊢; omega)]
        show some ((p.1.data.map Char.toNat, s.data.map Char.toNat)
            :: (q :: t2).map encPair, rest) = _
        rw [show ((p :: q :: t2).map encPair) = encPair p :: (q :: t2).map encPair from rfl,
            henc]

/-- Members are at least two characters long. -/
theorem itemOf_length (p : String × Json) : 2 ≤ (itemOf p).length := by
  unfold itemOf serStrL
  simp
  omega

/-- A non-empty member list serializes to at least `max 2 M.length`
characters. -/
theorem joinWith_items_length (M : List (String × Json)) (h : M ≠ []) :
    M.length ≤ (joinWith [','] (M.map itemOf)).length ∧
      2 ≤ (joinWith [','] (M.map itemOf)).length := by
  induction M with
  | nil => exact absurd rfl h
  | cons p t ih =>
    rcases t with _ | ⟨q, t2⟩
    · constructor
      · have := itemOf_length p
        show 1 ≤ (itemOf p).length
        omega
      · exact itemOf_length p
    · obtain ⟨ih1, ih2⟩ := ih (by simp)
      have hp := itemOf_length p
      show (p :: q :: t2).length ≤
          ((itemOf p ++ [',']) ++ joinWith [','] ((q :: t2).map itemOf)).length ∧
        2 ≤ ((itemOf p ++ [',']) ++ joinWith [','] ((q :: t2).map itemOf)).length
      simp only [List.length_cons, List.length_append, List.length_nil] at ih1 ih2 ⊢
      omega

/-- Decoding a serialized flat object recovers its (sorted) members. -/
theorem decodeFlatObj_ser (M : List (String × Json))
    (hall : ∀ p ∈ M, ∃ s, p.2 = Json.str s) :
    decodeFlatObj (obChar :: (joinWith [','] (M.map itemOf) ++ [cbChar]))
      = some (M.map encPair) := by
  rcases hM : M with _ | ⟨p, t⟩
  · rfl
  · obtain ⟨hlen1, hlen2⟩ := joinWith_items_length M (by rw [hM]; simp)
    rw [← hM]
    show (if (joinWith [','] (M.map itemOf) ++ [cbChar]) = [cbChar] then some []
          else
            match decodeItems (joinWith [','] (M.map itemOf) ++ [cbChar]).length
                (joinWith [','] (M.map itemOf) ++ [cbChar]) with
            | some (l, r) => if r = [] then some l else none
            | none => none)
        = some (M.map encPair)
    rw [if_neg (by
      intro heq
      have := congrArg List.length heq
      simp only [List.length_append, List.length_cons, List.length_nil] at this
      omega)]
    rw [show (joinWith [','] (M.map itemOf) ++ [cbChar] : List Char)
          = joinWith [','] (M.map itemOf) ++ cbChar :: [] from rfl]
    rw [decodeItems_roundtrip M [] _ (by rw [hM]; simp) hall (by
      simp only [List.length_append, List.length_cons, List.length_nil]
      omega)]
    rfl

/-- Code-point lists determine strings. -/
theorem string_of_codes {s1 s2 : String}
    (h : s1.data.map Char.toNat = s2.data.map Char.toNat) : s1 = s2 := by
  have hd : s1.data = s2.data :=
    List.map_injective_iff.mpr (fun a b hab => charToNat_inj hab) h
  rw [← strMkData s1, ← strMkData s2, hd]

/-- `encPair` is injective on string-valued member lists. -/
theorem map_encPair_inj :
    ∀ (M1 M2 : List (String × Json)),
      (∀ p ∈ M1, ∃ s, p.2 = Json.str s) → (∀ p ∈ M2, ∃ s, p.2 = Json.str s) →
      M1.map encPair = M2.map encPair → M1 = M2 := by
  intro M1
  induction M1 with
  | nil =>
    intro M2 _ _ h
    rcases M2 with _ | ⟨q, t2⟩
    · rfl
    · exact absurd h (by simp)
  | cons p t ih =>
    intro M2 h1 h2 h
    rcases M2 with _ | ⟨q, t2⟩
    · exact absurd h (by simp)
    · simp only [List.map_cons, List.cons.injEq] at h
      obtain ⟨s1, hs1⟩ := h1 p (List.mem_cons_self p t)
      obtain ⟨s2, hs2⟩ := h2 q (List.mem_cons_self q t2)
      have hkey : p.1 = q.1 := by
        have := congrArg Prod.fst h.1
        simp only [encPair] at this
        exact string_of_codes this
      have hval : p.2 = q.2 := by
        have := congrArg Prod.snd h.1
        simp only [encPair, hs1, hs2, strCodes] at this
        rw [hs1, hs2, string_of_codes this]
      have hpq : p = q := Prod.ext hkey hval
      rw [hpq, ih t2 (fun x hx => h1 x (List.mem_cons_of_mem p hx))
        (fun x hx => h2 x (List.mem_cons_of_mem q hx)) h.2]

/-- With distinct keys, lookup is invariant under permutation. -/
theorem lookup_perm_nodup {l1 l2 : List (String × Json)} (k : String)
    (hp : l1.Perm l2) (hn : (l1.map Prod.fst).Nodup) :
    List.lookup k l1 = List.lookup k l2 := by
  induction hp with
  | nil => rfl
  | cons x hp2 ih =>
    obtain ⟨a, b⟩ := x
    rw [List.lookup_cons, List.lookup_cons]
    cases hk : k == a
    · simp only []
      exact ih (by
        simp only [List.map_cons, List.nodup_cons] at hn
        exact hn.2)
    · rfl
  | swap x y l =>
    obtain ⟨a, b⟩ := x
    obtain ⟨c, d⟩ := y
    have hne : c ≠ a := by
      intro h
      rw [List.map_cons, List.map_cons, List.nodup_cons] at hn
      exact hn.1 (List.mem_cons.mpr (Or.inl h))
    rw [List.lookup_cons, List.lookup_cons, List.lookup_cons, List.lookup_cons]
    cases hka : k == a <;> cases hkc : k == c
    · simp only []
    · simp only []
    · simp only []
    · exact absurd (by
        have h1 : k = a := by simpa using hka
        have h2 : k = c := by simpa using hkc
        rw [← h1, ← h2]) hne
  | trans hp1 hp2 ih1 ih2 =>
    rw [ih1 hn, ih2 (((hp1.map Prod.fst).nodup_iff).mp hn)]

/-- Lookup commutes with embedding string values. -/
theorem lookup_map_str (k : String) (l : List (String × String)) :
    List.lookup k (l.map (fun p => (p.1, Json.str p.2)))
      = (List.lookup k l).map Json.str := by
  induction l with
  | nil => rfl
  | cons p t ih =>
    obtain ⟨a, b⟩ := p
    simp only [List.map_cons]
    rw [List.lookup_cons, List.lookup_cons]
    cases hk : k == a
    · simp only []
      exact ih
    · rfl

/-- Keys are unchanged by the string embedding. -/
theorem keys_map_str (l : List (String × String)) :
    ((l.map (fun p => (p.1, Json.str p.2))).map Prod.fst) = l.map Prod.fst := by
  induction l with
  | nil => rfl
  | cons p t ih =>
    simp only [List.map_cons, ih]

/-- The serializer is content-sensitive on string-valued contexts: a
difference in the value at any key shows up in the canonical
serialization. -/
theorem serializeFlat_content_sensitive :
    ∀ (l1 l2 : List (String × String)) (k s1 s2 : String),
      (l1.map Prod.fst).Nodup → (l2.map Prod.fst).Nodup →
      List.lookup k l1 = some s1 → List.lookup k l2 = some s2 → s1 ≠ s2 →
      serializeJsonL (ctxOfFlat l1) ≠ serializeJsonL (ctxOfFlat l2) := by
  intro l1 l2 k s1 s2 hn1 hn2 hl1 hl2 hne hser
  have hall1 : ∀ p ∈ List.insertionSort keyLe (l1.map (fun p => (p.1, Json.str p.2))),
      ∃ s, p.2 = Json.str s := by
    intro p hp
    have hp2 := (List.perm_insertionSort keyLe _).mem_iff.mp hp
    obtain ⟨q, _, hq2⟩ := List.mem_map.mp hp2
    exact ⟨q.2, by rw [← hq2]⟩
  have hall2 : ∀ p ∈ List.insertionSort keyLe (l2.map (fun p => (p.1, Json.str p.2))),
      ∃ s, p.2 = Json.str s := by
    intro p hp
    have hp2 := (List.perm_insertionSort keyLe _).mem_iff.mp hp
    obtain ⟨q, _, hq2⟩ := List.mem_map.mp hp2
    exact ⟨q.2, by rw [← hq2]⟩
  have hd1 := decodeFlatObj_ser _ hall1
  have hd2 := decodeFlatObj_ser _ hall2
  rw [← serializeJson_obj] at hd1 hd2
  have hobj : serializeJsonL (.obj (l1.map (fun p => (p.1, Json.str p.2))))
      = serializeJsonL (.obj (l2.map (fun p => (p.1, Json.str p.2)))) := hser
  rw [hobj, hd2] at hd1
  have hsort : List.insertionSort keyLe (l1.map (fun p => (p.1, Json.str p.2)))
      = List.insertionSort keyLe (l2.map (fun p => (p.1, Json.str p.2))) := by
    apply map_encPair_inj _ _ hall1 hall2
    exact Option.some.inj hd1.symm
  have hlook : List.lookup k (l1.map (fun p => (p.1, Json.str p.2)))
      = List.lookup k (l2.map (fun p => (p.1, Json.str p.2))) := by
    rw [lookup_perm_nodup k (List.perm_insertionSort keyLe _).symm
          (by rw [keys_map_str]; exact hn1),
        hsort,
        ← lookup_perm_nodup k (List.perm_insertionSort keyLe _).symm
          (by rw [keys_map_str]; exact hn2)]
  rw [lookup_map_str, lookup_map_str, hl1, hl2] at hlook
  exact hne (Json.str.inj (Option.some.inj hlook))

/-- C9 (corrected): fingerprinting is order-insensitive — two contexts with
identical key/value pairs in any insertion order have equal fingerprints —
and content-sensitive only at the serialization level: string-valued
contexts differing in the value at some key have different canonical
serializations, but different fingerprints cannot be guaranteed, because
the 160-bit digest admits collisions (see the counterexample). -/
theorem fingerprint_order_insensitive_serialization_injective :
    (∀ (l1 l2 : List (String × Json)), l1.Perm l2 → (l1.map Prod.fst).Nodup →
      _ctx_key (Json.obj l1) = _ctx_key (Json.obj l2)) ∧
    (∀ (l1 l2 : List (String × String)) (k s1 s2 : String),
      (l1.map Prod.fst).Nodup → (l2.map Prod.fst).Nodup →
      List.lookup k l1 = some s1 → List.lookup k l2 = some s2 → s1 ≠ s2 →
      serializeJsonL (ctxOfFlat l1) ≠ serializeJsonL (ctxOfFlat l2)) := by
  constructor
  · intro l1 l2 hp hn
    unfold _ctx_key
    rw [serializeJson_obj, serializeJson_obj, insertionSort_perm_eq hp hn]
  · exact serializeFlat_content_sensitive

/-- Witness for C9's corrected claim: two-key contexts in both insertion
orders share a fingerprint; single-key contexts with different values have
different serializations. -/
theorem fingerprint_order_insensitive_serialization_injective_witness :
    _ctx_key (Json.obj [(r"a", Json.str (r"x")), (r"b", Json.str (r"y"))])
      = _ctx_key (Json.obj [(r"b", Json.str (r"y")), (r"a", Json.str (r"x"))]) ∧
    serializeJsonL (ctxOfFlat [(r"k", r"v1")])
      ≠ serializeJsonL (ctxOfFlat [(r"k", r"v2")]) :=
  ⟨fingerprint_order_insensitive_serialization_injective.1 _ _
      (List.Perm.swap (r"b", Json.str (r"y")) (r"a", Json.str (r"x")) [])
      (by decide),
   fingerprint_order_insensitive_serialization_injective.2
      [(r"k", r"v1")] [(r"k", r"v2")] (r"k") (r"v1") (r"v2")
      (by decide) (by decide) rfl rfl (by decide)⟩

end AIPlanner
